import Mathlib

/-!
# Verification of the incremental Spotify → Yandex.Music like-sync engine

Shallow embedding of `src/sync_spotify_to_yandex.py`.  Each definition below
mirrors one function of the script; external services (the Spotify paginated
listing, the Yandex search / like / like-listing API) are modelled by explicit
inputs describing the outcome of every call the script would make.

Conventions of the embedding:
* Python strings are modelled as Lean `String`s, manipulated through their
  character list (`String.data`) where the script slices them.
* Python `datetime` values (always timezone-aware UTC in this program, at
  second precision) are modelled by `PyDateTime`; chronological comparison is
  the mixed-radix `PyDateTime.key`, which on in-range field values coincides
  with Python's field-lexicographic datetime order.
* `datetime.fromisoformat` is a library call, modelled on the fixed-width
  `YYYY-MM-DDTHH:MM:SS+00:00` shape that this program's timestamps use
  (Spotify `added_at` values and the program's own persisted watermarks);
  every other input is treated as unparseable (`none`), matching the
  program's `except ValueError: return None` recovery.
* Exceptions are modelled with `Except Unit`: `.error ()` is an uncaught
  exception propagating out of the modelled function.
-/

namespace SpotifySync

/-- Model of a (second-precision, UTC) Python `datetime` value. -/
structure PyDateTime where
  year : Nat
  month : Nat
  day : Nat
  hour : Nat
  minute : Nat
  second : Nat
deriving DecidableEq, Repr

/-- Mixed-radix chronological key.  For field values in calendar range this
is order-isomorphic to Python's lexicographic `datetime` comparison. -/
def PyDateTime.key (t : PyDateTime) : Nat :=
  ((((t.year * 13 + t.month) * 32 + t.day) * 24 + t.hour) * 60 + t.minute) * 60 + t.second

/-- Gregorian leap-year test (as in Python's `calendar`/`datetime`). -/
def isLeap (y : Nat) : Bool :=
  (y % 4 == 0 && y % 100 != 0) || y % 400 == 0

/-- Days in a month, as validated by `datetime`. -/
def daysInMonth (y m : Nat) : Nat :=
  if m == 2 then (if isLeap y then 29 else 28)
  else if m == 4 || m == 6 || m == 9 || m == 11 then 30
  else 31

/-- The field ranges `datetime` accepts (year 1..9999, real calendar day,
time of day).  `datetime.fromisoformat` raises `ValueError` outside them. -/
def validDT (t : PyDateTime) : Bool :=
  1 ≤ t.year && t.year ≤ 9999 &&
  1 ≤ t.month && t.month ≤ 12 &&
  1 ≤ t.day && t.day ≤ daysInMonth t.year t.month &&
  t.hour ≤ 23 && t.minute ≤ 59 && t.second ≤ 59

/-- Decimal digit character (total; callers only use arguments `< 10`). -/
def dig : Nat → Char
  | 0 => '0' | 1 => '1' | 2 => '2' | 3 => '3' | 4 => '4'
  | 5 => '5' | 6 => '6' | 7 => '7' | 8 => '8' | _ => '9'

/-- Numeric value of a digit character. -/
def digVal (c : Char) : Nat := c.toNat - 48

/-- Digit test, as in `int()` parsing of a fixed-width field. -/
def isDig (c : Char) : Bool := 48 ≤ c.toNat && c.toNat ≤ 57

/-- Build the datetime only when the fields are in `datetime`'s ranges;
otherwise `fromisoformat` raises `ValueError`, which `parse_spotify_ts`
turns into `None`. -/
def mkValid (y mo d h mi s : Nat) : Option PyDateTime :=
  if validDT ⟨y, mo, d, h, mi, s⟩ then some ⟨y, mo, d, h, mi, s⟩ else none

/-- Read a fixed two-digit decimal field. -/
def read2 : List Char → Option (Nat × List Char)
  | c1 :: c2 :: rest =>
    if isDig c1 && isDig c2 then some (digVal c1 * 10 + digVal c2, rest) else none
  | _ => none

/-- Read a fixed four-digit decimal field (the year). -/
def read4 : List Char → Option (Nat × List Char)
  | c1 :: c2 :: c3 :: c4 :: rest =>
    if isDig c1 && isDig c2 && isDig c3 && isDig c4 then
      some ((((digVal c1 * 10 + digVal c2) * 10 + digVal c3) * 10 + digVal c4), rest)
    else none
  | _ => none

/-- Consume one expected separator character. -/
def expectChar (c : Char) : List Char → Option (List Char)
  | c' :: rest => if c' = c then some rest else none
  | _ => none

/-- Model of `datetime.fromisoformat` (followed by `astimezone(utc)`, a no-op
at offset `+00:00`) on the fixed-width `YYYY-MM-DDTHH:MM:SS+00:00` shape this
program feeds it; any other character shape is treated as unparseable. -/
def parseIsoChars (l : List Char) : Option PyDateTime :=
  (read4 l).bind fun p1 =>
  (expectChar '-' p1.2).bind fun l2 =>
  (read2 l2).bind fun p2 =>
  (expectChar '-' p2.2).bind fun l4 =>
  (read2 l4).bind fun p3 =>
  (expectChar 'T' p3.2).bind fun l6 =>
  (read2 l6).bind fun p4 =>
  (expectChar ':' p4.2).bind fun l8 =>
  (read2 l8).bind fun p5 =>
  (expectChar ':' p5.2).bind fun l10 =>
  (read2 l10).bind fun p6 =>
  if p6.2 = ['+', '0', '0', ':', '0', '0'] then
    mkValid p1.1 p2.1 p3.1 p4.1 p5.1 p6.1
  else none

/-- Function `parse_spotify_ts`: `None`/empty is falsy; a trailing `"Z"` is rewritten
to `"+00:00"`; then `fromisoformat`, with `ValueError` mapped to `None`. -/
def parse_spotify_ts : Option String → Option PyDateTime
  | none => none
  | some s =>
    if s.data = [] then none
    else if s.data.getLast? = some 'Z'
    then parseIsoChars (s.data.dropLast ++ ['+', '0', '0', ':', '0', '0'])
    else parseIsoChars s.data

/-- The character rendering `format_spotify_ts` produces:
`isoformat()` of a UTC datetime with `microsecond=0`, with the `"+00:00"`
suffix replaced by `"Z"` (faithful for datetimes in `validDT` range). -/
def renderTsChars (t : PyDateTime) : List Char :=
  [dig (t.year / 1000 % 10), dig (t.year / 100 % 10), dig (t.year / 10 % 10), dig (t.year % 10),
   '-', dig (t.month / 10 % 10), dig (t.month % 10),
   '-', dig (t.day / 10 % 10), dig (t.day % 10),
   'T', dig (t.hour / 10 % 10), dig (t.hour % 10),
   ':', dig (t.minute / 10 % 10), dig (t.minute % 10),
   ':', dig (t.second / 10 % 10), dig (t.second % 10),
   'Z']

/-- Function `format_spotify_ts`: `None` maps to `None` (a `datetime` is always
truthy); otherwise render `YYYY-MM-DDTHH:MM:SSZ`. -/
def format_spotify_ts : Option PyDateTime → Option String
  | none => none
  | some t => some (String.mk (renderTsChars t))

/-! ## Change Detector: `fetch_spotify_liked_tracks` -/

/-- Raw artist object in a Spotify page item (`a.get("name", "")`). -/
structure RawArtist where
  name : Option String
deriving DecidableEq, Repr

/-- Raw album object in a Spotify page item (`album.get("name", "")`). -/
structure RawAlbum where
  name : Option String
deriving DecidableEq, Repr

/-- Raw `track` payload of a Spotify saved-track item.  `id` is `Option`
(and the empty string is falsy, like `None`, under `if not track_id`). -/
structure RawTrackObj where
  id : Option String
  name : Option String
  artists : List RawArtist
  album : Option RawAlbum
  duration_ms : Option Nat
deriving DecidableEq, Repr

/-- One item of the paginated `current_user_saved_tracks` listing; the
`track` payload may be absent (`item.get("track") or {}` is falsy). -/
structure RawItem where
  track : Option RawTrackObj
  added_at : Option String
deriving DecidableEq, Repr

/-- The dictionary the script builds for each new track. -/
structure Track where
  id : String
  name : String
  artists : List String
  album_name : String
  duration_ms : Nat
  added_at : Option String
deriving DecidableEq, Repr

/-- The record appended to `new_tracks` for a kept item. -/
def mkTrack (tr : RawTrackObj) (tid : String) (added : Option String) : Track :=
  { id := tid
    name := tr.name.getD ""
    artists := tr.artists.map (fun a => a.name.getD "")
    album_name := match tr.album with
      | none => ""
      | some al => al.name.getD ""
    duration_ms := tr.duration_ms.getD 0
    added_at := added }

/-- The early-stop test: `since_dt and added_dt and added_dt <= since_dt`
(datetimes are always truthy, so only presence and the comparison matter). -/
def stopCheck (since d : Option PyDateTime) : Bool :=
  match since, d with
  | some sv, some dv => dv.key ≤ sv.key
  | _, _ => false

/-- The body of the `for item in items` loop: returns the tracks collected
from this page (in arrival order) and whether the `stop` flag was set. -/
def processPageItems (since : Option PyDateTime) : List RawItem → List Track × Bool
  | [] => ([], false)
  | it :: rest =>
    match it.track with
    | none => processPageItems since rest
    | some tr =>
      match tr.id with
      | none => processPageItems since rest
      | some tid =>
        if tid = "" then processPageItems since rest
        else if stopCheck since (parse_spotify_ts it.added_at) then ([], true)
        else
          let pr := processPageItems since rest
          (mkTrack tr tid it.added_at :: pr.1, pr.2)

/-- The `while True` paging loop.  The Spotify listing is modelled as the
full newest-first list `L`; `current_user_saved_tracks(limit, offset)`
returns the slice `(L.drop offset).take limit`. -/
def fetchAux (L : List RawItem) (since : Option PyDateTime) (limit : Nat) (offset : Nat) :
    List Track :=
  if h : (L.drop offset).take limit = [] then []
  else
    let pr := processPageItems since ((L.drop offset).take limit)
    if pr.2 then pr.1
    else if ((L.drop offset).take limit).length < limit then pr.1
    else pr.1 ++ fetchAux L since limit (offset + ((L.drop offset).take limit).length)
termination_by L.length - offset
decreasing_by
  have h1 : offset < L.length := by
    by_contra hc
    push_neg at hc
    rw [List.drop_eq_nil_of_le hc, List.take_nil] at h
    exact h rfl
  have h3 : 0 < ((L.drop offset).take limit).length := List.length_pos.mpr h
  omega

/-- Function `fetch_spotify_liked_tracks`: collect items strictly newer than the
watermark (newest first), then reverse to oldest-first order. -/
def fetch_spotify_liked_tracks (L : List RawItem) (last_added_at : Option String)
    (page_limit : Nat := 50) : List Track :=
  (fetchAux L (parse_spotify_ts last_added_at) page_limit 0).reverse

/-! ## Target catalog (Yandex.Music) side -/

/-- One entry of `ym.users_likes_tracks()` (duck-typed `getattr` access). -/
structure YLikeItem where
  id : Option String
  album_id : Option String
deriving DecidableEq, Repr

/-- Function `fetch_yandex_liked_ids`: `"track_id:album_id"` keys of the current
likes; the whole listing call may raise (`.error ()`), in which case the
partial (empty) result is returned — the failure is swallowed. -/
def fetch_yandex_liked_ids : Except Unit (List YLikeItem) → Finset String
  | .error _ => ∅
  | .ok items =>
    items.foldl (fun acc it =>
      match it.id, it.album_id with
      | some tid, some aid =>
        if tid = "" then acc
        else if aid = "" then acc
        else insert (tid ++ ":" ++ aid) acc
      | _, _ => acc) ∅

/-- Album object attached to a Yandex track (`albums[0].id`). -/
structure YAlbum where
  id : Option String
deriving DecidableEq, Repr

/-- A Yandex `Track` object as the script uses it. -/
structure YTrack where
  id : Option String
  albums : Option (List YAlbum)
  title : String
  artists : List String
deriving DecidableEq, Repr

/-- Function `build_yandex_like_id`: `'track_id:album_id'` from the first album;
`None`/empty id and `None`/empty album list are falsy. -/
def build_yandex_like_id (t : YTrack) : Option String :=
  match t.id with
  | none => none
  | some tid =>
    if tid = "" then none
    else
      match t.albums with
      | none => none
      | some [] => none
      | some (a :: _) =>
        match a.id with
        | none => none
        | some aid => if aid = "" then none else some (tid ++ ":" ++ aid)

/-- Outcome of one remote call: success, a `TimedOutError`, or any other
exception kind. -/
inductive CallOutcome (α : Type) where
  | ok (a : α)
  | timeout
  | err
deriving DecidableEq, Repr

/-- The `tracks` block of a Yandex search response. -/
structure TracksBlock where
  results : List YTrack
deriving DecidableEq, Repr

/-- A Yandex search response object (`search_result.tracks` may be absent). -/
structure SearchResultObj where
  tracks : Option TracksBlock
deriving DecidableEq, Repr

/-- Result of the three-attempt `for`/`except TimedOutError` loop. -/
inductive RetryOut (α : Type) where
  | got (a : α)
  | exhausted
  | raised
deriving DecidableEq, Repr

/-- Observable trace of a retry loop: its outcome, how many remote calls
were made, and how many fixed-delay `time.sleep(3)` pauses ran. -/
structure RetryTrace (α : Type) where
  out : RetryOut α
  calls : Nat
  sleeps : Nat
deriving DecidableEq, Repr

/-- The search retry loop, attempt `k`, with `rem` attempts left (the
script runs it as attempts `0,1,2`).  Only `TimedOutError` is caught and
retried after a sleep; any other exception propagates (`raised`). -/
def searchRetryAux (sb : Nat → CallOutcome (Option SearchResultObj)) :
    Nat → Nat → RetryTrace (Option SearchResultObj)
  | _, 0 => ⟨.exhausted, 0, 0⟩
  | k, rem + 1 =>
    match sb k with
    | .ok r => ⟨.got r, 1, 0⟩
    | .err => ⟨.raised, 1, 0⟩
    | .timeout =>
      let t := searchRetryAux sb (k + 1) rem
      ⟨t.out, t.calls + 1, t.sleeps + 1⟩

/-- The `for`/`else` fallthrough check on the search result:
`not search_result or not search_result.tracks or not results` → `None`,
else the first result. -/
def processSearch : Option SearchResultObj → Option YTrack
  | none => none
  | some sr =>
    match sr.tracks with
    | none => none
    | some tb =>
      match tb.results with
      | [] => none
      | t :: _ => some t

/-- Function `find_best_yandex_match` over the per-attempt behaviour `sb` of
`ym.search`.  Returns the chosen track (or `None`) plus the number of
search calls made; a non-timeout exception from `ym.search` is not caught
and propagates (`.error ()`). -/
def find_best_yandex_match (sb : Nat → CallOutcome (Option SearchResultObj)) :
    Except Unit (Option YTrack × Nat) :=
  let t := searchRetryAux sb 0 3
  match t.out with
  | .raised => .error ()
  | .exhausted => .ok (none, t.calls)
  | .got r => .ok (processSearch r, t.calls)

/-- Observable trace of `like_yandex_track`: the returned boolean, the
number of `users_likes_tracks_add` calls, and the sleeps run. -/
structure LikeTrace where
  success : Bool
  calls : Nat
  sleeps : Nat
deriving DecidableEq, Repr

/-- The like retry loop: success returns `True`, `TimedOutError` sleeps and
retries, any other exception is caught and returns `False`; after three
timeouts it falls through to `False`. -/
def likeRetryAux (ab : Nat → CallOutcome Unit) : Nat → Nat → LikeTrace
  | _, 0 => ⟨false, 0, 0⟩
  | k, rem + 1 =>
    match ab k with
    | .ok _ => ⟨true, 1, 0⟩
    | .err => ⟨false, 1, 0⟩
    | .timeout =>
      let t := likeRetryAux ab (k + 1) rem
      ⟨t.success, t.calls + 1, t.sleeps + 1⟩

/-- Function `like_yandex_track` over the per-attempt behaviour `ab` of
`users_likes_tracks_add`.  Returns the trace and the updated in-memory
like set (`existing_likes.add(like_id)` runs on success). -/
def like_yandex_track (ab : Nat → CallOutcome Unit) (ya_track : YTrack)
    (existing_likes : Finset String) : LikeTrace × Finset String :=
  match build_yandex_like_id ya_track with
  | none => (⟨false, 0, 0⟩, existing_likes)
  | some like_id =>
    if like_id ∈ existing_likes then (⟨true, 0, 0⟩, existing_likes)
    else
      let t := likeRetryAux ab 0 3
      (t, if t.success then insert like_id existing_likes else existing_likes)

/-! ## Persisted state: `load_state` / `save_state` -/

/-- A JSON value as Python's `json.load` produces it (numbers modelled as
integers; this program never stores floats). -/
inductive PyVal where
  | null
  | bool (b : Bool)
  | num (n : Int)
  | str (s : String)
  | list (xs : List PyVal)
  | dict (fs : List (String × PyVal))

/-- Lookup in a parsed JSON object (keys are unique after `json.load`). -/
def dictGet (fs : List (String × PyVal)) (k : String) : Option PyVal :=
  (fs.find? (fun p => p.1 == k)).map (fun p => p.2)

mutual

/-- Python `repr` of a JSON-decoded value (simplified: no escaping inside
string quotes; containers rendered with brackets and comma separators). -/
def pyRepr : PyVal → String
  | .null => "None"
  | .bool true => "True"
  | .bool false => "False"
  | .num n => toString n
  | .str s => "'" ++ s ++ "'"
  | .list xs => "[" ++ pyReprItems xs ++ "]"
  | .dict fs => "\x7b" ++ pyReprFields fs ++ "\x7d"

def pyReprItems : List PyVal → String
  | [] => ""
  | [x] => pyRepr x
  | x :: xs => pyRepr x ++ ", " ++ pyReprItems xs

def pyReprFields : List (String × PyVal) → String
  | [] => ""
  | [p] => "'" ++ p.1 ++ "': " ++ pyRepr p.2
  | p :: ps => "'" ++ p.1 ++ "': " ++ pyRepr p.2 ++ ", " ++ pyReprFields ps

end

/-- Python `str()` of a JSON-decoded value (`str` on a string is itself). -/
def pyStr : PyVal → String
  | .str s => s
  | v => pyRepr v

/-- What the state file held when `load_state` ran. -/
inductive FileContent where
  | absent
  | unreadable
  | content (v : PyVal)

/-- The dictionary `load_state` returns: the normalized
`processed_spotify_ids` list and the raw `last_spotify_added_at` value. -/
structure LoadedDict where
  processed : List String
  lastRaw : PyVal

/-- Function `load_state`: absent or unreadable/unparseable file → fresh default;
a JSON object → `setdefault` both keys, replace a non-list
`processed_spotify_ids` by `[]`, and coerce its entries with `str`;
a parseable JSON value that is not an object has no `setdefault`, so the
`AttributeError` escapes (`.error ()`). -/
def load_state : FileContent → Except Unit LoadedDict
  | .absent => .ok ⟨[], .null⟩
  | .unreadable => .ok ⟨[], .null⟩
  | .content v =>
    match v with
    | .dict fs =>
      let praw := (dictGet fs "processed_spotify_ids").getD (.list [])
      let lraw := (dictGet fs "last_spotify_added_at").getD .null
      let pl := match praw with
        | .list xs => xs.map pyStr
        | _ => []
      .ok ⟨pl, lraw⟩
    | _ => .error ()

/-! ## The Reconciler: `main` -/

/-- The typed sync state `main` starts from (`processed_spotify_ids` as
loaded, `last_spotify_added_at` as a string or `None`). -/
structure LoadedState where
  processed : List String
  last : Option String
deriving DecidableEq, Repr

/-- Content of one atomic `save_state` write: the full state dict
(`processed_spotify_ids` serialized from the in-memory set, so modelled as
the set; `last_spotify_added_at`). -/
structure SavedFile where
  processed : Finset String
  last : Option String
deriving DecidableEq

/-- Per-item behaviour of the external Yandex API during the run:
the outcome of each `ym.search` attempt and each
`users_likes_tracks_add` attempt for the item at that loop index. -/
structure ItemEnv where
  searchB : Nat → CallOutcome (Option SearchResultObj)
  addB : Nat → CallOutcome Unit

/-- The mutable state of `main`'s loop, plus observable instrumentation:
`searchCalls`/`addCalls` count remote calls issued, `lastSaved` is the
state-file content after the most recent `save_state` (`none` = the file
was never written this run), `savedCount` counts `save_state` calls. -/
structure RunState where
  processed : Finset String
  stateLast : Option String
  maxAdded : Option PyDateTime
  yaLikes : Finset String
  added : Nat
  skipped : Nat
  notFound : Nat
  searchCalls : Nat
  addCalls : Nat
  sleeps : Nat
  lastSaved : Option SavedFile
  savedCount : Nat
deriving DecidableEq

/-- The update `if added_dt and (max_added_dt is None or added_dt > max_added_dt)`. -/
def maxStep (m d : Option PyDateTime) : Option PyDateTime :=
  match d with
  | none => m
  | some dv =>
    match m with
    | none => some dv
    | some mv => if mv.key < dv.key then some dv else m

/-- The two `state[...] = ...; save_state(state)` lines: update the dict's
`last_spotify_added_at` only when `max_added_dt` is truthy, then write the
whole state atomically. -/
def saveState (st : RunState) : RunState :=
  let last' := match st.maxAdded with
    | some d => format_spotify_ts (some d)
    | none => st.stateLast
  { st with stateLast := last'
            lastSaved := some ⟨st.processed, last'⟩
            savedCount := st.savedCount + 1 }

/-- One iteration of `main`'s `for` loop over a fetched track. -/
def mainStep (e : ItemEnv) (st : RunState) (t : Track) : Except Unit RunState :=
  let st := { st with maxAdded := maxStep st.maxAdded (parse_spotify_ts t.added_at) }
  if t.id ∈ st.processed then
    .ok { st with skipped := st.skipped + 1 }
  else
    match find_best_yandex_match e.searchB with
    | .error u => .error u
    | .ok (res, calls) =>
      let st := { st with searchCalls := st.searchCalls + calls }
      match res with
      | none =>
        .ok (saveState { st with notFound := st.notFound + 1
                                 processed := insert t.id st.processed })
      | some yt =>
        let r := like_yandex_track e.addB yt st.yaLikes
        .ok (saveState { st with yaLikes := r.2
                                 addCalls := st.addCalls + r.1.calls
                                 added := if r.1.success then st.added + 1 else st.added
                                 processed := insert t.id st.processed })

/-- Function `main`'s loop over the fetched tracks (`enumerate(..., start=1)`; the
index selects this item's slice of the external behaviour). -/
def mainLoop (env : Nat → ItemEnv) : RunState → Nat → List Track → Except Unit RunState
  | st, _, [] => .ok st
  | st, i, t :: rest =>
    match mainStep (env i) st t with
    | .error u => .error u
    | .ok st' => mainLoop env st' (i + 1) rest

/-- The state `main` builds before its loop. -/
def initialRunState (s : LoadedState) (yaLikes : Finset String) : RunState :=
  { processed := s.processed.toFinset
    stateLast := s.last
    maxAdded := parse_spotify_ts s.last
    yaLikes := yaLikes
    added := 0
    skipped := 0
    notFound := 0
    searchCalls := 0
    addCalls := 0
    sleeps := 0
    lastSaved := none
    savedCount := 0 }

/-- Function `main` from the already-loaded state and an already-fetched track list
(the reconciliation phase proper). -/
def reconcileRun (s : LoadedState) (yaLikes : Finset String) (tracks : List Track)
    (env : Nat → ItemEnv) : Except Unit RunState :=
  mainLoop env (initialRunState s yaLikes) 1 tracks

/-- Function `main`: fetch the Yandex like set, fetch new Spotify tracks, then
reconcile.  (When the fetch is empty `main` returns before the loop; the
loop over `[]` leaves the state untouched, which is the same behaviour.) -/
def mainRun (s : LoadedState) (listing : List RawItem)
    (ya : Except Unit (List YLikeItem)) (env : Nat → ItemEnv) : Except Unit RunState :=
  reconcileRun s (fetch_yandex_liked_ids ya)
    (fetch_spotify_liked_tracks listing s.last 50) env

/-- Exit code of the `__main__` wrapper: any exception escaping `main`
ends the process with exit code 1. -/
def scriptExitCode (s : LoadedState) (listing : List RawItem)
    (ya : Except Unit (List YLikeItem)) (env : Nat → ItemEnv) : Nat :=
  match mainRun s listing ya env with
  | .ok _ => 0
  | .error _ => 1

/-- The watermark on disk after a run: the last `save_state` content, or
whatever the file held before if the run never wrote it. -/
def persistedLast (s : LoadedState) (st : RunState) : Option String :=
  match st.lastSaved with
  | some f => f.last
  | none => s.last

/-- The running `max_added_dt` accumulated over a track list. -/
def listMax (m : Option PyDateTime) (ts : List Track) : Option PyDateTime :=
  ts.foldl (fun acc t => maxStep acc (parse_spotify_ts t.added_at)) m

/-! ## Specification-side vocabulary used in the theorem statements -/

/-- Whether a raw item sets the `stop` flag when the loop scans it: it must
survive the `track`/`track_id` checks, have a parseable `added_at`, and a
watermark must exist with `added_at` ≤ watermark. -/
def stopsItem (since : Option PyDateTime) (it : RawItem) : Bool :=
  match it.track with
  | none => false
  | some tr =>
    match tr.id with
    | none => false
    | some tid =>
      if tid = "" then false
      else stopCheck since (parse_spotify_ts it.added_at)

/-- The track a scanned item contributes (none when the item is dropped for
a missing `track` payload or missing/empty `id`). -/
def itemToTrack (it : RawItem) : Option Track :=
  match it.track with
  | none => none
  | some tr =>
    match tr.id with
    | none => none
    | some tid => if tid = "" then none else some (mkTrack tr tid it.added_at)

/-- An item with full data: a usable track/id and a parseable `added_at`. -/
def completeItem (it : RawItem) : Bool :=
  (itemToTrack it).isSome && (parse_spotify_ts it.added_at).isSome

/-- Chronological order on optional timestamps: absent is a lower bound. -/
def tsLeO : Option PyDateTime → Option PyDateTime → Prop
  | none, _ => True
  | some a, none => False
  | some a, some b => a.key ≤ b.key

/-- A watermark string in the program's own canonical form: formatting its
parse gives the string back (every watermark the program writes is such). -/
def canonicalTs (w : String) : Prop :=
  format_spotify_ts (parse_spotify_ts (some w)) = some w

/-- The watermark value the run should persist: the formatted maximum of
the previous watermark and all considered `added_at`s, or the previous
string when nothing parseable was ever seen. -/
def expectedLast (s : LoadedState) (tracks : List Track) : Option String :=
  match listMax (parse_spotify_ts s.last) tracks with
  | some d => format_spotify_ts (some d)
  | none => s.last

/-- The like key a Yandex like-listing entry contributes, if any: both ids
must be present and truthy (non-empty). -/
def likeKeyOf (it : YLikeItem) : Option String :=
  match it.id, it.album_id with
  | some tid, some aid =>
    if tid = "" then none
    else if aid = "" then none
    else some (tid ++ ":" ++ aid)
  | _, _ => none

/-- Every present value is a range-valid datetime. -/
def validO (m : Option PyDateTime) : Prop :=
  ∀ d, m = some d → validDT d = true

/-- Loop invariant of `main` relative to the loaded state `s`: the
watermark candidate dominates the previous watermark and stays valid, the
saved file's watermark mirrors the dict field, and the dict field is either
untouched or the formatting of a valid datetime ≥ the previous watermark. -/
def runInv (s : LoadedState) (st : RunState) : Prop :=
  tsLeO (parse_spotify_ts s.last) st.maxAdded ∧
  validO st.maxAdded ∧
  (∀ f, st.lastSaved = some f → f.last = st.stateLast) ∧
  (st.stateLast = s.last ∨
    ∃ d, validDT d = true ∧ tsLeO (parse_spotify_ts s.last) (some d) ∧
      st.stateLast = format_spotify_ts (some d))

theorem digVal_dig_mod (n : Nat) : digVal (dig (n % 10)) = n % 10 := by
  have h : n % 10 < 10 := Nat.mod_lt _ (by norm_num)
  revert h
  generalize n % 10 = k
  intro h
  interval_cases k <;> rfl

theorem isDig_dig_mod (n : Nat) : isDig (dig (n % 10)) = true := by
  have h : n % 10 < 10 := Nat.mod_lt _ (by norm_num)
  revert h
  generalize n % 10 = k
  intro h
  interval_cases k <;> rfl

theorem daysInMonth_le (y m : Nat) : daysInMonth y m ≤ 31 := by
  unfold daysInMonth
  split <;> [split <;> omega; split <;> omega]

/-- Parser `parseIsoChars` recovers a valid datetime from its rendering (with the
`Z` already rewritten to the `+00:00` offset). -/
theorem parseIso_render (t : PyDateTime) (h : validDT t = true) :
    parseIsoChars ((renderTsChars t).dropLast ++ ['+', '0', '0', ':', '0', '0']) = some t := by
  have hb := h
  simp only [validDT, Bool.and_eq_true, decide_eq_true_eq] at hb
  obtain ⟨⟨⟨⟨⟨⟨⟨⟨hy1, hy2⟩, hm1⟩, hm2⟩, hd1⟩, hd2⟩, hh2⟩, hn2⟩, hs2⟩ := hb
  have hd31 : t.day ≤ 31 := le_trans hd2 (daysInMonth_le _ _)
  simp only [renderTsChars, List.dropLast, List.cons_append, List.nil_append]
  simp only [parseIsoChars, read4, read2, expectChar, isDig_dig_mod, digVal_dig_mod,
    Bool.and_self, if_true, Option.some_bind, reduceIte]
  have e1 : ((t.year / 1000 % 10 * 10 + t.year / 100 % 10) * 10 + t.year / 10 % 10) * 10
      + t.year % 10 = t.year := by omega
  have e2 : t.month / 10 % 10 * 10 + t.month % 10 = t.month := by omega
  have e3 : t.day / 10 % 10 * 10 + t.day % 10 = t.day := by omega
  have e4 : t.hour / 10 % 10 * 10 + t.hour % 10 = t.hour := by omega
  have e5 : t.minute / 10 % 10 * 10 + t.minute % 10 = t.minute := by omega
  have e6 : t.second / 10 % 10 * 10 + t.second % 10 = t.second := by omega
  simp only [e1, e2, e3, e4, e5, e6, mkValid, h, if_true, reduceIte]

/-- Parsing the canonical rendering of a valid second-precision datetime
recovers it exactly. -/
theorem parse_render (t : PyDateTime) (h : validDT t = true) :
    parse_spotify_ts (some (String.mk (renderTsChars t))) = some t := by
  have hdata : (String.mk (renderTsChars t)).data = renderTsChars t := rfl
  simp only [parse_spotify_ts, hdata]
  rw [if_neg (by simp [renderTsChars]), if_pos (by simp [renderTsChars, List.getLast?])]
  exact parseIso_render t h

/-- Any datetime `parse_spotify_ts` produces is within `datetime`'s ranges. -/
theorem parseIso_valid {l : List Char} {d : PyDateTime}
    (h : parseIsoChars l = some d) : validDT d = true := by
  simp only [parseIsoChars, Option.bind_eq_some] at h
  obtain ⟨⟨y, l1⟩, -, ⟨l2, -, ⟨⟨mo, l3⟩, -, ⟨l4, -, ⟨⟨dy, l5⟩, -, ⟨l6, -, ⟨⟨hh, l7⟩,
    -, ⟨l8, -, ⟨⟨mi, l9⟩, -, ⟨l10, -, ⟨⟨ss, l11⟩, -, h⟩⟩⟩⟩⟩⟩⟩⟩⟩⟩⟩ := h
  split at h
  · unfold mkValid at h
    split at h
    · cases h
      assumption
    · cases h
  · cases h

theorem parse_valid {o : Option String} {d : PyDateTime}
    (h : parse_spotify_ts o = some d) : validDT d = true := by
  cases o with
  | none => cases h
  | some s =>
    simp only [parse_spotify_ts] at h
    split at h
    · cases h
    · split at h
      · exact parseIso_valid h
      · exact parseIso_valid h

/-- Formatting then reparsing a valid datetime is the identity. -/
theorem format_parse (t : PyDateTime) (h : validDT t = true) :
    parse_spotify_ts (format_spotify_ts (some t)) = some t := by
  simpa [format_spotify_ts] using parse_render t h

/-! ### Change Detector lemmas -/

/-- One scanned item, described through `stopsItem` / `itemToTrack`. -/
theorem processPageItems_cons (since : Option PyDateTime) (it : RawItem)
    (rest : List RawItem) :
    processPageItems since (it :: rest) =
      if stopsItem since it then ([], true)
      else
        match itemToTrack it with
        | none => processPageItems since rest
        | some tr => (tr :: (processPageItems since rest).1,
                      (processPageItems since rest).2) := by
  cases htr : it.track with
  | none => simp [processPageItems, stopsItem, itemToTrack, htr]
  | some tr =>
    cases hid : tr.id with
    | none => simp [processPageItems, stopsItem, itemToTrack, htr, hid]
    | some tid =>
      by_cases h1 : tid = ""
      · simp [processPageItems, stopsItem, itemToTrack, htr, hid, h1]
      · by_cases h2 : stopCheck since (parse_spotify_ts it.added_at) <;>
          simp [processPageItems, stopsItem, itemToTrack, htr, hid, h1, h2]

theorem processPageItems_append (since : Option PyDateTime) (xs ys : List RawItem) :
    processPageItems since (xs ++ ys) =
      if (processPageItems since xs).2 then processPageItems since xs
      else ((processPageItems since xs).1 ++ (processPageItems since ys).1,
            (processPageItems since ys).2) := by
  induction xs with
  | nil => simp [processPageItems]
  | cons it rest ih =>
    rw [List.cons_append, processPageItems_cons, processPageItems_cons]
    by_cases hstop : stopsItem since it
    · simp [hstop]
    · cases hit : itemToTrack it with
      | none => simpa [hstop] using ih
      | some tr =>
        by_cases h3 : (processPageItems since rest).2 <;>
          simp [hstop, hit, h3, ih]

theorem processPageItems_fst (since : Option PyDateTime) (xs : List RawItem) :
    (processPageItems since xs).1 =
      (xs.takeWhile (fun it => !stopsItem since it)).filterMap itemToTrack := by
  induction xs with
  | nil => simp [processPageItems]
  | cons it rest ih =>
    rw [processPageItems_cons]
    by_cases hstop : stopsItem since it
    · simp [hstop, List.takeWhile_cons]
    · cases hit : itemToTrack it with
      | none => simpa [hstop, List.takeWhile_cons, hit] using ih
      | some tr => simp [hstop, List.takeWhile_cons, hit, ih]

theorem processPageItems_snd (since : Option PyDateTime) (xs : List RawItem) :
    (processPageItems since xs).2 = xs.any (stopsItem since) := by
  induction xs with
  | nil => simp [processPageItems]
  | cons it rest ih =>
    rw [processPageItems_cons]
    by_cases hstop : stopsItem since it
    · simp [hstop]
    · cases hit : itemToTrack it with
      | none => simpa [hstop] using ih
      | some tr => simp [hstop, hit, ih]

/-- The paging loop scans exactly the flat suffix of the listing: paging is
invisible in the result (for a positive page size). -/
theorem fetchAux_flat (L : List RawItem) (since : Option PyDateTime) (limit : Nat)
    (hl : 0 < limit) : ∀ offset,
    fetchAux L since limit offset = (processPageItems since (L.drop offset)).1 := by
  have H : ∀ n offset, L.length - offset ≤ n →
      fetchAux L since limit offset = (processPageItems since (L.drop offset)).1 := by
    intro n
    induction n with
    | zero =>
      intro offset hn
      have hdrop : L.drop offset = [] := List.drop_eq_nil_of_le (by omega)
      rw [fetchAux, dif_pos (by rw [hdrop, List.take_nil]), hdrop]
      simp [processPageItems]
    | succ n ih =>
      intro offset hn
      rw [fetchAux]
      by_cases h0 : (L.drop offset).take limit = []
      · rw [dif_pos h0]
        rcases List.take_eq_nil_iff.mp h0 with h | h
        · omega
        · rw [h]
          simp [processPageItems]
      · rw [dif_neg h0]
        have hsplit : (L.drop offset).take limit ++ (L.drop offset).drop limit =
            L.drop offset := List.take_append_drop _ _
        have happ := processPageItems_append since ((L.drop offset).take limit)
          ((L.drop offset).drop limit)
        rw [hsplit] at happ
        by_cases hstop : (processPageItems since ((L.drop offset).take limit)).2
        · rw [if_pos hstop, happ, if_pos hstop]
        · rw [if_neg hstop]
          by_cases hshort : ((L.drop offset).take limit).length < limit
          · rw [if_pos hshort]
            have hlen : (L.drop offset).length < limit := by
              have := List.length_take limit (L.drop offset)
              omega
            have hrest : (L.drop offset).drop limit = [] :=
              List.drop_eq_nil_of_le (le_of_lt hlen)
            rw [happ, if_neg hstop, hrest]
            simp [processPageItems]
          · rw [if_neg hshort]
            have hlen : ((L.drop offset).take limit).length = limit := by
              have := List.length_take limit (L.drop offset)
              omega
            have hoff : offset < L.length := by
              by_contra hc
              push_neg at hc
              rw [List.drop_eq_nil_of_le hc, List.take_nil] at h0
              exact h0 rfl
            have hrec := ih (offset + ((L.drop offset).take limit).length) (by omega)
            rw [hrec, happ, if_neg hstop]
            have hdd : (L.drop offset).drop limit =
                L.drop (offset + ((L.drop offset).take limit).length) := by
              rw [hlen, List.drop_drop, Nat.add_comm]
            rw [hdd]
  intro offset
  exact H (L.length - offset) offset le_rfl

/-- Function `fetch_spotify_liked_tracks` in closed form: the valid tracks of the
longest listing prefix containing no stopping item, reversed. -/
theorem fetch_spotify_closed (L : List RawItem) (w : Option String) (limit : Nat)
    (hl : 0 < limit) :
    fetch_spotify_liked_tracks L w limit =
      ((L.takeWhile (fun it => !stopsItem (parse_spotify_ts w) it)).filterMap
        itemToTrack).reverse := by
  unfold fetch_spotify_liked_tracks
  rw [fetchAux_flat L _ limit hl 0, List.drop_zero, processPageItems_fst]

/-! ### Retry-policy lemmas -/

theorem searchRetryAux_calls_le (sb : Nat → CallOutcome (Option SearchResultObj)) :
    ∀ rem k, (searchRetryAux sb k rem).calls ≤ rem := by
  intro rem
  induction rem with
  | zero => intro k; simp [searchRetryAux]
  | succ n ih =>
    intro k
    rw [searchRetryAux]
    cases sb k with
    | ok r => simp
    | err => simp
    | timeout =>
      simp only
      have := ih (k + 1)
      omega

theorem searchRetryAux_retry_only_timeout (sb : Nat → CallOutcome (Option SearchResultObj)) :
    ∀ rem k j, j + 1 < (searchRetryAux sb k rem).calls → sb (k + j) = .timeout := by
  intro rem
  induction rem with
  | zero => intro k j h; simp [searchRetryAux] at h
  | succ n ih =>
    intro k j h
    rw [searchRetryAux] at h
    cases hk : sb k with
    | ok r => rw [hk] at h; simp at h
    | err => rw [hk] at h; simp at h
    | timeout =>
      rw [hk] at h
      simp only at h
      cases j with
      | zero => simpa using hk
      | succ m =>
        have := ih (k + 1) m (by omega)
        simpa [Nat.add_comm, Nat.add_left_comm, Nat.add_assoc] using this

theorem searchRetryAux_exhausted (sb : Nat → CallOutcome (Option SearchResultObj)) :
    ∀ rem k, (∀ i, i < rem → sb (k + i) = .timeout) →
      searchRetryAux sb k rem = ⟨.exhausted, rem, rem⟩ := by
  intro rem
  induction rem with
  | zero => intro k _; simp [searchRetryAux]
  | succ n ih =>
    intro k hall
    rw [searchRetryAux]
    have h0 : sb k = .timeout := by simpa using hall 0 (by omega)
    rw [h0]
    have := ih (k + 1) (fun i hi => by
      have := hall (i + 1) (by omega)
      simpa [Nat.add_comm, Nat.add_left_comm, Nat.add_assoc] using this)
    simp [this]

theorem searchRetryAux_err (sb : Nat → CallOutcome (Option SearchResultObj)) :
    ∀ rem k j, j < rem → sb (k + j) = .err → (∀ i, i < j → sb (k + i) = .timeout) →
      searchRetryAux sb k rem = ⟨.raised, j + 1, j⟩ := by
  intro rem
  induction rem with
  | zero => intro k j h; omega
  | succ n ih =>
    intro k j hj herr hpre
    rw [searchRetryAux]
    cases j with
    | zero =>
      simp only [Nat.add_zero] at herr
      rw [herr]
    | succ m =>
      have h0 : sb k = .timeout := by simpa using hpre 0 (by omega)
      rw [h0]
      have := ih (k + 1) m (by omega)
        (by simpa [Nat.add_comm, Nat.add_left_comm, Nat.add_assoc] using herr)
        (fun i hi => by
          have := hpre (i + 1) (by omega)
          simpa [Nat.add_comm, Nat.add_left_comm, Nat.add_assoc] using this)
      simp [this]

theorem searchRetryAux_sleeps (sb : Nat → CallOutcome (Option SearchResultObj)) :
    ∀ rem k, (searchRetryAux sb k rem).sleeps =
      (if (searchRetryAux sb k rem).out = .exhausted then (searchRetryAux sb k rem).calls
       else (searchRetryAux sb k rem).calls - 1) := by
  intro rem
  induction rem with
  | zero => intro k; simp [searchRetryAux]
  | succ n ih =>
    intro k
    rw [searchRetryAux]
    cases sb k with
    | ok r => simp
    | err => simp
    | timeout =>
      simp only
      have h1 := ih (k + 1)
      have h2 := searchRetryAux_calls_le sb n (k + 1)
      by_cases ho : (searchRetryAux sb (k + 1) n).out = .exhausted
      · rw [ho] at h1
        simp only [ho, if_true, reduceIte] at h1 ⊢
        omega
      · rw [if_neg ho] at h1
        rw [if_neg ho]
        have h3 : (searchRetryAux sb (k + 1) n).calls ≠ 0 := by
          intro hz
          cases hn : (searchRetryAux sb (k + 1) n).out with
          | exhausted => exact ho hn
          | got r =>
            exfalso
            revert hz hn
            clear h1 h2 ho
            induction n generalizing k with
            | zero => simp [searchRetryAux]
            | succ m ihm =>
              rw [searchRetryAux]
              cases sb (k + 1) with
              | ok r' => simp
              | err => simp
              | timeout => simp
          | raised =>
            exfalso
            revert hz hn
            clear h1 h2 ho
            induction n generalizing k with
            | zero => simp [searchRetryAux]
            | succ m ihm =>
              rw [searchRetryAux]
              cases sb (k + 1) with
              | ok r' => simp
              | err => simp
              | timeout => simp
        omega

theorem likeRetryAux_calls_le (ab : Nat → CallOutcome Unit) :
    ∀ rem k, (likeRetryAux ab k rem).calls ≤ rem := by
  intro rem
  induction rem with
  | zero => intro k; simp [likeRetryAux]
  | succ n ih =>
    intro k
    rw [likeRetryAux]
    cases ab k with
    | ok r => simp
    | err => simp
    | timeout =>
      simp only
      have := ih (k + 1)
      omega

theorem likeRetryAux_retry_only_timeout (ab : Nat → CallOutcome Unit) :
    ∀ rem k j, j + 1 < (likeRetryAux ab k rem).calls → ab (k + j) = .timeout := by
  intro rem
  induction rem with
  | zero => intro k j h; simp [likeRetryAux] at h
  | succ n ih =>
    intro k j h
    rw [likeRetryAux] at h
    cases hk : ab k with
    | ok r => rw [hk] at h; simp at h
    | err => rw [hk] at h; simp at h
    | timeout =>
      rw [hk] at h
      simp only at h
      cases j with
      | zero => simpa using hk
      | succ m =>
        have := ih (k + 1) m (by omega)
        simpa [Nat.add_comm, Nat.add_left_comm, Nat.add_assoc] using this

theorem likeRetryAux_exhausted (ab : Nat → CallOutcome Unit) :
    ∀ rem k, (∀ i, i < rem → ab (k + i) = .timeout) →
      likeRetryAux ab k rem = ⟨false, rem, rem⟩ := by
  intro rem
  induction rem with
  | zero => intro k _; simp [likeRetryAux]
  | succ n ih =>
    intro k hall
    rw [likeRetryAux]
    have h0 : ab k = .timeout := by simpa using hall 0 (by omega)
    rw [h0]
    have := ih (k + 1) (fun i hi => by
      have := hall (i + 1) (by omega)
      simpa [Nat.add_comm, Nat.add_left_comm, Nat.add_assoc] using this)
    simp [this]

theorem likeRetryAux_err (ab : Nat → CallOutcome Unit) :
    ∀ rem k j, j < rem → ab (k + j) = .err → (∀ i, i < j → ab (k + i) = .timeout) →
      likeRetryAux ab k rem = ⟨false, j + 1, j⟩ := by
  intro rem
  induction rem with
  | zero => intro k j h; omega
  | succ n ih =>
    intro k j hj herr hpre
    rw [likeRetryAux]
    cases j with
    | zero =>
      simp only [Nat.add_zero] at herr
      rw [herr]
    | succ m =>
      have h0 : ab k = .timeout := by simpa using hpre 0 (by omega)
      rw [h0]
      have := ih (k + 1) m (by omega)
        (by simpa [Nat.add_comm, Nat.add_left_comm, Nat.add_assoc] using herr)
        (fun i hi => by
          have := hpre (i + 1) (by omega)
          simpa [Nat.add_comm, Nat.add_left_comm, Nat.add_assoc] using this)
      simp [this]

/-! ### Order and maximum lemmas -/

theorem tsLeO_refl (m : Option PyDateTime) : tsLeO m m := by
  cases m <;> simp [tsLeO]

theorem tsLeO_trans {a b c : Option PyDateTime} (h1 : tsLeO a b) (h2 : tsLeO b c) :
    tsLeO a c := by
  cases a with
  | none => trivial
  | some av =>
    cases b with
    | none => exact absurd h1 (by simp [tsLeO])
    | some bv =>
      cases c with
      | none => exact absurd h2 (by simp [tsLeO])
      | some cv =>
        simp only [tsLeO] at h1 h2 ⊢
        omega

theorem maxStep_grows (m d : Option PyDateTime) : tsLeO m (maxStep m d) := by
  cases d with
  | none => exact tsLeO_refl m
  | some dv =>
    cases m with
    | none => trivial
    | some mv =>
      simp only [maxStep]
      by_cases h : mv.key < dv.key
      · simp only [h, if_true, reduceIte, tsLeO]
        omega
      · simp only [h, if_false, reduceIte, ite_false]
        exact tsLeO_refl _

theorem maxStep_ge_arg (m : Option PyDateTime) (dv : PyDateTime) :
    tsLeO (some dv) (maxStep m (some dv)) := by
  cases m with
  | none => simp [maxStep, tsLeO]
  | some mv =>
    simp only [maxStep]
    by_cases h : mv.key < dv.key
    · simp only [h, if_true, reduceIte, tsLeO]
      omega
    · simp only [h, if_false, reduceIte, ite_false, tsLeO]
      omega

theorem maxStep_validO {m d : Option PyDateTime} (hm : validO m) (hd : validO d) :
    validO (maxStep m d) := by
  cases d with
  | none => exact hm
  | some dv =>
    cases m with
    | none => exact hd
    | some mv =>
      simp only [maxStep]
      by_cases h : mv.key < dv.key
      · simpa [h] using hd
      · simpa [h] using hm

theorem maxStep_eq_none {m d : Option PyDateTime} (h : maxStep m d = none) :
    m = none ∧ d = none := by
  cases d with
  | none => exact ⟨h, rfl⟩
  | some dv =>
    cases m with
    | none => simp [maxStep] at h
    | some mv =>
      simp only [maxStep] at h
      by_cases hk : mv.key < dv.key <;> simp [hk] at h

theorem listMax_grows (ts : List Track) : ∀ m, tsLeO m (listMax m ts) := by
  induction ts with
  | nil => intro m; exact tsLeO_refl m
  | cons t rest ih =>
    intro m
    simp only [listMax, List.foldl_cons]
    exact tsLeO_trans (maxStep_grows m (parse_spotify_ts t.added_at)) (ih _)

theorem listMax_validO (ts : List Track) : ∀ m, validO m → validO (listMax m ts) := by
  induction ts with
  | nil => intro m hm; exact hm
  | cons t rest ih =>
    intro m hm
    simp only [listMax, List.foldl_cons]
    exact ih _ (maxStep_validO hm (fun d hd => parse_valid hd))

theorem listMax_eq_none {ts : List Track} {m : Option PyDateTime}
    (h : listMax m ts = none) : m = none := by
  induction ts generalizing m with
  | nil => exact h
  | cons t rest ih =>
    simp only [listMax, List.foldl_cons] at h
    exact (maxStep_eq_none (ih h)).1

theorem listMax_upper (ts : List Track) : ∀ m, ∀ t ∈ ts, ∀ d,
    parse_spotify_ts t.added_at = some d → tsLeO (some d) (listMax m ts) := by
  induction ts with
  | nil => intro m t ht; cases ht
  | cons u rest ih =>
    intro m t ht d hd
    have hstep : listMax m (u :: rest) =
        listMax (maxStep m (parse_spotify_ts u.added_at)) rest := rfl
    rcases List.mem_cons.mp ht with rfl | ht'
    · rw [hstep]
      have h1 : tsLeO (some d) (maxStep m (parse_spotify_ts t.added_at)) := by
        rw [hd]
        exact maxStep_ge_arg m d
      exact tsLeO_trans h1 (listMax_grows rest _)
    · rw [hstep]
      exact ih _ t ht' d hd

theorem listMax_attained (ts : List Track) : ∀ m,
    listMax m ts = m ∨ ∃ t ∈ ts, listMax m ts = parse_spotify_ts t.added_at := by
  induction ts with
  | nil => intro m; exact Or.inl rfl
  | cons t rest ih =>
    intro m
    have hstep : listMax m (t :: rest) =
        listMax (maxStep m (parse_spotify_ts t.added_at)) rest := rfl
    rw [hstep]
    rcases ih (maxStep m (parse_spotify_ts t.added_at)) with h | ⟨u, hu, he⟩
    · rw [h]
      cases hd : parse_spotify_ts t.added_at with
      | none => simp [maxStep]
      | some dv =>
        cases hm : m with
        | none =>
          refine Or.inr ⟨t, List.mem_cons_self _ _, ?_⟩
          simp [maxStep, hd]
        | some mv =>
          simp only [maxStep]
          by_cases hk : mv.key < dv.key
          · refine Or.inr ⟨t, List.mem_cons_self _ _, ?_⟩
            simp [hk, hd]
          · simp [hk]
    · exact Or.inr ⟨u, List.mem_cons_of_mem _ hu, he⟩

/-! ### Reconciler step lemmas -/

theorem mainStep_skip (e : ItemEnv) (st : RunState) (t : Track)
    (h : t.id ∈ st.processed) :
    mainStep e st t = .ok
      { st with maxAdded := maxStep st.maxAdded (parse_spotify_ts t.added_at)
                skipped := st.skipped + 1 } := by
  simp [mainStep, h]

theorem mainStep_maxAdded {e : ItemEnv} {st : RunState} {t : Track} {st' : RunState}
    (h : mainStep e st t = .ok st') :
    st'.maxAdded = maxStep st.maxAdded (parse_spotify_ts t.added_at) := by
  simp only [mainStep] at h
  by_cases hm : t.id ∈ st.processed
  · rw [if_pos hm] at h
    cases h
    rfl
  · rw [if_neg hm] at h
    cases hfb : find_best_yandex_match e.searchB with
    | error u => rw [hfb] at h; cases h
    | ok p =>
      obtain ⟨res, calls⟩ := p
      rw [hfb] at h
      cases res with
      | none => cases h; rfl
      | some yt => cases h; rfl

theorem mainStep_stateLast_or {e : ItemEnv} {st : RunState} {t : Track} {st' : RunState}
    (h : mainStep e st t = .ok st') :
    st'.stateLast = st.stateLast ∨
      ∃ d, st'.maxAdded = some d ∧ st'.stateLast = format_spotify_ts (some d) := by
  simp only [mainStep] at h
  by_cases hm : t.id ∈ st.processed
  · rw [if_pos hm] at h
    cases h
    exact Or.inl rfl
  · rw [if_neg hm] at h
    cases hfb : find_best_yandex_match e.searchB with
    | error u => rw [hfb] at h; cases h
    | ok p =>
      obtain ⟨res, calls⟩ := p
      rw [hfb] at h
      cases res with
      | none =>
        cases h
        cases hmx : maxStep st.maxAdded (parse_spotify_ts t.added_at) with
        | none => exact Or.inl (by simp [saveState, hmx])
        | some d =>
          exact Or.inr ⟨d, by simp [saveState, hmx], by simp [saveState, hmx]⟩
      | some yt =>
        cases h
        cases hmx : maxStep st.maxAdded (parse_spotify_ts t.added_at) with
        | none => exact Or.inl (by simp [saveState, hmx])
        | some d =>
          exact Or.inr ⟨d, by simp [saveState, hmx], by simp [saveState, hmx]⟩

theorem mainStep_none_last {e : ItemEnv} {st : RunState} {t : Track} {st' : RunState}
    (h : mainStep e st t = .ok st') (hn : st'.maxAdded = none) :
    st'.stateLast = st.stateLast := by
  rcases mainStep_stateLast_or h with hl | ⟨d, hd, _⟩
  · exact hl
  · rw [hn] at hd
    cases hd

theorem mainStep_saved_mirror {e : ItemEnv} {st : RunState} {t : Track} {st' : RunState}
    (h : mainStep e st t = .ok st')
    (hmir : ∀ f, st.lastSaved = some f → f.last = st.stateLast) :
    ∀ f, st'.lastSaved = some f → f.last = st'.stateLast := by
  simp only [mainStep] at h
  by_cases hm : t.id ∈ st.processed
  · rw [if_pos hm] at h
    cases h
    exact hmir
  · rw [if_neg hm] at h
    cases hfb : find_best_yandex_match e.searchB with
    | error u => rw [hfb] at h; cases h
    | ok p =>
      obtain ⟨res, calls⟩ := p
      rw [hfb] at h
      cases res with
      | none =>
        cases h
        intro f hf
        simp only [saveState] at hf ⊢
        cases hf
        rfl
      | some yt =>
        cases h
        intro f hf
        simp only [saveState] at hf ⊢
        cases hf
        rfl

theorem mainStep_processed_subset {e : ItemEnv} {st : RunState} {t : Track} {st' : RunState}
    (h : mainStep e st t = .ok st') :
    ∀ x ∈ st'.processed, x ∈ st.processed ∨ x = t.id := by
  simp only [mainStep] at h
  by_cases hm : t.id ∈ st.processed
  · rw [if_pos hm] at h
    cases h
    exact fun x hx => Or.inl hx
  · rw [if_neg hm] at h
    cases hfb : find_best_yandex_match e.searchB with
    | error u => rw [hfb] at h; cases h
    | ok p =>
      obtain ⟨res, calls⟩ := p
      rw [hfb] at h
      cases res with
      | none =>
        cases h
        intro x hx
        simp only [saveState] at hx
        rcases Finset.mem_insert.mp hx with hx | hx
        · exact Or.inr hx
        · exact Or.inl hx
      | some yt =>
        cases h
        intro x hx
        simp only [saveState] at hx
        rcases Finset.mem_insert.mp hx with hx | hx
        · exact Or.inr hx
        · exact Or.inl hx

theorem mainStep_fresh_saves {e : ItemEnv} {st : RunState} {t : Track} {st' : RunState}
    (h : mainStep e st t = .ok st') (hm : t.id ∉ st.processed) :
    st'.processed = insert t.id st.processed ∧
    st'.stateLast = (match st'.maxAdded with
      | some d => format_spotify_ts (some d)
      | none => st.stateLast) ∧
    st'.lastSaved = some ⟨st'.processed, st'.stateLast⟩ ∧
    st'.savedCount = st.savedCount + 1 := by
  simp only [mainStep] at h
  rw [if_neg hm] at h
  cases hfb : find_best_yandex_match e.searchB with
  | error u => rw [hfb] at h; cases h
  | ok p =>
    obtain ⟨res, calls⟩ := p
    rw [hfb] at h
    cases res with
    | none =>
      cases h
      refine ⟨rfl, ?_, rfl, rfl⟩
      cases hmx : maxStep st.maxAdded (parse_spotify_ts t.added_at) <;>
        simp [saveState, hmx]
    | some yt =>
      cases h
      refine ⟨rfl, ?_, rfl, rfl⟩
      cases hmx : maxStep st.maxAdded (parse_spotify_ts t.added_at) <;>
        simp [saveState, hmx]

theorem searchRetryAux_no_raise (sb : Nat → CallOutcome (Option SearchResultObj))
    (hsb : ∀ n, sb n ≠ .err) : ∀ rem k, (searchRetryAux sb k rem).out ≠ .raised := by
  intro rem
  induction rem with
  | zero => intro k; simp [searchRetryAux]
  | succ n ih =>
    intro k
    rw [searchRetryAux]
    cases hk : sb k with
    | ok r => simp
    | err => exact absurd hk (hsb k)
    | timeout => simpa using ih (k + 1)

theorem find_best_ok (sb : Nat → CallOutcome (Option SearchResultObj))
    (hsb : ∀ n, sb n ≠ .err) :
    ∃ out, find_best_yandex_match sb = .ok out := by
  unfold find_best_yandex_match
  cases ho : (searchRetryAux sb 0 3).out with
  | raised => exact absurd ho (searchRetryAux_no_raise sb hsb 3 0)
  | exhausted =>
    refine ⟨(none, (searchRetryAux sb 0 3).calls), ?_⟩
    simp only [ho]
  | got r =>
    refine ⟨(processSearch r, (searchRetryAux sb 0 3).calls), ?_⟩
    simp only [ho]

theorem mainStep_ok_of_no_err (e : ItemEnv) (st : RunState) (t : Track)
    (hsb : ∀ n, e.searchB n ≠ .err) :
    ∃ st', mainStep e st t = .ok st' := by
  simp only [mainStep]
  by_cases hm : t.id ∈ st.processed
  · rw [if_pos hm]
    exact ⟨_, rfl⟩
  · rw [if_neg hm]
    obtain ⟨out, hout⟩ := find_best_ok e.searchB hsb
    rw [hout]
    obtain ⟨res, calls⟩ := out
    cases res with
    | none => exact ⟨_, rfl⟩
    | some yt => exact ⟨_, rfl⟩

/-! ### Reconciler loop lemmas -/

theorem mainLoop_append (env : Nat → ItemEnv) (xs ys : List Track) :
    ∀ st i, mainLoop env st i (xs ++ ys) =
      match mainLoop env st i xs with
      | .error u => .error u
      | .ok st1 => mainLoop env st1 (i + xs.length) ys := by
  induction xs with
  | nil => intro st i; simp [mainLoop]
  | cons t rest ih =>
    intro st i
    rw [List.cons_append]
    show (match mainStep (env i) st t with
      | .error u => Except.error u
      | .ok st' => mainLoop env st' (i + 1) (rest ++ ys)) = _
    cases hst : mainStep (env i) st t with
    | error u => simp [mainLoop, hst]
    | ok st' =>
      have hred : (match Except.ok st' with
        | Except.error u => Except.error u
        | Except.ok stx => mainLoop env stx (i + 1) (rest ++ ys)) =
          mainLoop env st' (i + 1) (rest ++ ys) := rfl
      rw [hred, ih st' (i + 1)]
      have hscr : mainLoop env st i (t :: rest) = mainLoop env st' (i + 1) rest := by
        show (match mainStep (env i) st t with
          | Except.error u => Except.error u
          | Except.ok stx => mainLoop env stx (i + 1) rest) = _
        rw [hst]
      rw [hscr]
      cases hloop : mainLoop env st' (i + 1) rest with
      | error u => rfl
      | ok st1 =>
        show mainLoop env st1 (i + 1 + rest.length) ys =
          mainLoop env st1 (i + (t :: rest).length) ys
        congr 1
        simp only [List.length_cons]
        omega

theorem mainLoop_maxAdded (env : Nat → ItemEnv) (ts : List Track) :
    ∀ st i st', mainLoop env st i ts = .ok st' →
      st'.maxAdded = listMax st.maxAdded ts := by
  induction ts with
  | nil =>
    intro st i st' h
    cases h
    rfl
  | cons t rest ih =>
    intro st i st' h
    show st'.maxAdded = listMax (maxStep st.maxAdded (parse_spotify_ts t.added_at)) rest
    simp only [mainLoop] at h
    cases hst : mainStep (env i) st t with
    | error u => rw [hst] at h; cases h
    | ok stm =>
      rw [hst] at h
      rw [ih stm (i + 1) st' h, mainStep_maxAdded hst]

theorem mainLoop_none_last (env : Nat → ItemEnv) (ts : List Track) :
    ∀ st i st', mainLoop env st i ts = .ok st' → st'.maxAdded = none →
      st'.stateLast = st.stateLast := by
  induction ts with
  | nil =>
    intro st i st' h _
    cases h
    rfl
  | cons t rest ih =>
    intro st i st' h hn
    simp only [mainLoop] at h
    cases hst : mainStep (env i) st t with
    | error u => rw [hst] at h; cases h
    | ok stm =>
      rw [hst] at h
      have h1 : st'.stateLast = stm.stateLast := ih stm (i + 1) st' h hn
      have h2 : stm.maxAdded = none := by
        have := mainLoop_maxAdded env rest stm (i + 1) st' h
        rw [hn] at this
        exact listMax_eq_none this.symm
      rw [h1, mainStep_none_last hst h2]

theorem mainLoop_processed_subset (env : Nat → ItemEnv) (ts : List Track) :
    ∀ st i st', mainLoop env st i ts = .ok st' →
      ∀ x ∈ st'.processed, x ∈ st.processed ∨ x ∈ ts.map Track.id := by
  induction ts with
  | nil =>
    intro st i st' h x hx
    cases h
    exact Or.inl hx
  | cons t rest ih =>
    intro st i st' h x hx
    simp only [mainLoop] at h
    cases hst : mainStep (env i) st t with
    | error u => rw [hst] at h; cases h
    | ok stm =>
      rw [hst] at h
      rcases ih stm (i + 1) st' h x hx with hmem | hmem
      · rcases mainStep_processed_subset hst x hmem with hmem' | hmem'
        · exact Or.inl hmem'
        · exact Or.inr (by simp [hmem'])
      · exact Or.inr (by simp [List.mem_cons_of_mem]; right; simpa using hmem)

theorem mainLoop_inv (s : LoadedState) (env : Nat → ItemEnv) (ts : List Track) :
    ∀ st i st', mainLoop env st i ts = .ok st' → runInv s st → runInv s st' := by
  induction ts with
  | nil =>
    intro st i st' h hi
    cases h
    exact hi
  | cons t rest ih =>
    intro st i st' h hi
    simp only [mainLoop] at h
    cases hst : mainStep (env i) st t with
    | error u => rw [hst] at h; cases h
    | ok stm =>
      rw [hst] at h
      refine ih stm (i + 1) st' h ?_
      obtain ⟨h1, h2, h3, h4⟩ := hi
      have hmax := mainStep_maxAdded hst
      refine ⟨?_, ?_, mainStep_saved_mirror hst h3, ?_⟩
      · rw [hmax]
        exact tsLeO_trans h1 (maxStep_grows _ _)
      · rw [hmax]
        exact maxStep_validO h2 (fun d hd => parse_valid hd)
      · rcases mainStep_stateLast_or hst with hl | ⟨d, hd, hl⟩
        · rw [hl]
          exact h4
        · right
          refine ⟨d, ?_, ?_, hl⟩
          · have : validO stm.maxAdded := by
              rw [hmax]
              exact maxStep_validO h2 (fun d hd => parse_valid hd)
            exact this d hd
          · have : tsLeO (parse_spotify_ts s.last) stm.maxAdded := by
              rw [hmax]
              exact tsLeO_trans h1 (maxStep_grows _ _)
            rw [hd] at this
            exact this

theorem mainLoop_ok_of_no_err (env : Nat → ItemEnv) (ts : List Track)
    (hsb : ∀ i n, (env i).searchB n ≠ .err) :
    ∀ st i, ∃ st', mainLoop env st i ts = .ok st' := by
  induction ts with
  | nil => intro st i; exact ⟨st, rfl⟩
  | cons t rest ih =>
    intro st i
    obtain ⟨stm, hstm⟩ := mainStep_ok_of_no_err (env i) st t (hsb i)
    obtain ⟨st', hst'⟩ := ih stm (i + 1)
    refine ⟨st', ?_⟩
    simp only [mainLoop]
    rw [hstm]
    exact hst'

theorem mainLoop_all_skip (env : Nat → ItemEnv) (ts : List Track) :
    ∀ st i, (∀ t ∈ ts, t.id ∈ st.processed) →
      mainLoop env st i ts = .ok
        { st with maxAdded := listMax st.maxAdded ts
                  skipped := st.skipped + ts.length } := by
  induction ts with
  | nil =>
    intro st i _
    rfl
  | cons t rest ih =>
    intro st i hall
    have hskip := mainStep_skip (env i) st t (hall t (List.mem_cons_self _ _))
    have hstep : mainLoop env st i (t :: rest) =
        mainLoop env
          { st with maxAdded := maxStep st.maxAdded (parse_spotify_ts t.added_at)
                    skipped := st.skipped + 1 } (i + 1) rest := by
      show (match mainStep (env i) st t with
        | .error u => Except.error u
        | .ok st' => mainLoop env st' (i + 1) rest) = _
      rw [hskip]
    have hrec := ih
      { st with maxAdded := maxStep st.maxAdded (parse_spotify_ts t.added_at)
                skipped := st.skipped + 1 } (i + 1)
      (fun u hu => hall u (List.mem_cons_of_mem _ hu))
    rw [hstep, hrec]
    simp only [Except.ok.injEq, RunState.mk.injEq, List.length_cons]
    exact ⟨trivial, trivial, rfl, trivial, trivial, by omega, trivial, trivial,
      trivial, trivial, trivial, trivial⟩

/-! ### Sorted-listing corollary for the Change Detector -/

theorem stopsItem_none (it : RawItem) : stopsItem none it = false := by
  cases htr : it.track with
  | none => simp [stopsItem, htr]
  | some tr =>
    cases hid : tr.id with
    | none => simp [stopsItem, htr, hid]
    | some tid =>
      by_cases h1 : tid = "" <;> simp [stopsItem, htr, hid, h1, stopCheck]

theorem dropWhile_head_false {α : Type} (p : α → Bool) :
    ∀ (l : List α) s rest, l.dropWhile p = s :: rest → p s = false := by
  intro l
  induction l with
  | nil => intro s rest h; cases h
  | cons a as ih =>
    intro s rest h
    rw [List.dropWhile_cons] at h
    by_cases hp : p a
    · rw [if_pos hp] at h
      exact ih s rest h
    · rw [if_neg hp] at h
      cases h
      simpa using hp

theorem stopsItem_complete {it : RawItem} {tr : Track} {d : PyDateTime}
    (hv : itemToTrack it = some tr) (hd : parse_spotify_ts it.added_at = some d)
    (sv : PyDateTime) :
    stopsItem (some sv) it = decide (d.key ≤ sv.key) := by
  cases htr : it.track with
  | none => simp [itemToTrack, htr] at hv
  | some trk =>
    cases hid : trk.id with
    | none => simp [itemToTrack, htr, hid] at hv
    | some tid =>
      by_cases h1 : tid = ""
      · simp [itemToTrack, htr, hid, h1] at hv
      · simp [stopsItem, htr, hid, h1, stopCheck, hd]

/-- On a complete, newest-first listing with a parseable watermark, the
fetch returns exactly the items strictly newer than the watermark. -/
theorem fetch_mem_sorted (L : List RawItem) (w : String) (sv : PyDateTime) (limit : Nat)
    (hl : 0 < limit)
    (hw : parse_spotify_ts (some w) = some sv)
    (hcomp : ∀ it ∈ L, completeItem it = true)
    (hsort : L.Pairwise (fun a b => ∀ da db, parse_spotify_ts a.added_at = some da →
      parse_spotify_ts b.added_at = some db → db.key ≤ da.key)) :
    ∀ tr, tr ∈ fetch_spotify_liked_tracks L (some w) limit ↔
      ∃ it ∈ L, itemToTrack it = some tr ∧
        ∃ d, parse_spotify_ts it.added_at = some d ∧ sv.key < d.key := by
  intro tr
  rw [fetch_spotify_closed L (some w) limit hl, hw, List.mem_reverse, List.mem_filterMap]
  constructor
  · rintro ⟨it, hin, hit⟩
    have hinL : it ∈ L := (List.takeWhile_sublist _).subset hin
    have hp : stopsItem (some sv) it = false := by
      simpa using List.mem_takeWhile_imp hin
    have hc := hcomp it hinL
    rw [completeItem, Bool.and_eq_true] at hc
    obtain ⟨d, hd⟩ := Option.isSome_iff_exists.mp hc.2
    refine ⟨it, hinL, hit, d, hd, ?_⟩
    rw [stopsItem_complete hit hd sv] at hp
    have := of_decide_eq_false hp
    omega
  · rintro ⟨it, hinL, hit, d, hd, hlt⟩
    refine ⟨it, ?_, hit⟩
    by_contra hnot
    have hmem : it ∈ L.dropWhile (fun x => !stopsItem (some sv) x) := by
      have hLdec := List.takeWhile_append_dropWhile
        (fun x => !stopsItem (some sv) x) L
      have := hinL
      rw [← hLdec] at this
      rcases List.mem_append.mp this with h | h
      · exact absurd h hnot
      · exact h
    obtain ⟨s, rest', hD⟩ : ∃ s rest',
        L.dropWhile (fun x => !stopsItem (some sv) x) = s :: rest' := by
      cases hD' : L.dropWhile (fun x => !stopsItem (some sv) x) with
      | nil => rw [hD'] at hmem; cases hmem
      | cons s r => exact ⟨s, r, rfl⟩
    have hps : (!stopsItem (some sv) s) = false := dropWhile_head_false _ L s rest' hD
    have hsL : s ∈ L := (List.dropWhile_sublist _).subset (by rw [hD]; simp)
    have hcs := hcomp s hsL
    rw [completeItem, Bool.and_eq_true] at hcs
    obtain ⟨trs, htrs⟩ := Option.isSome_iff_exists.mp hcs.1
    obtain ⟨ds, hds⟩ := Option.isSome_iff_exists.mp hcs.2
    have hstop : stopsItem (some sv) s = true := by simpa using hps
    rw [stopsItem_complete htrs hds sv] at hstop
    have hdsle : ds.key ≤ sv.key := by simpa using hstop
    rw [hD] at hmem
    rcases List.mem_cons.mp hmem with rfl | hit'
    · rw [hd] at hds
      cases hds
      omega
    · have hLdec : L = L.takeWhile (fun x => !stopsItem (some sv) x) ++ s :: rest' := by
        rw [← hD, List.takeWhile_append_dropWhile]
      have hsort' := hsort
      rw [hLdec] at hsort'
      obtain ⟨-, hpair2, -⟩ := List.pairwise_append.mp hsort'
      have hrel := (List.pairwise_cons.mp hpair2).1 it hit'
      have := hrel ds d hds hd
      omega

/-! ### Target-snapshot and empty-fetch lemmas -/

theorem yandexFoldStep (acc : Finset String) (it : YLikeItem) :
    (match it.id, it.album_id with
      | some tid, some aid =>
        if tid = "" then acc
        else if aid = "" then acc
        else insert (tid ++ ":" ++ aid) acc
      | _, _ => acc) =
    (match likeKeyOf it with
      | none => acc
      | some key => insert key acc) := by
  cases hid : it.id with
  | none => simp [likeKeyOf, hid]
  | some tid =>
    cases hal : it.album_id with
    | none => simp [likeKeyOf, hid, hal]
    | some aid =>
      by_cases h1 : tid = ""
      · simp [likeKeyOf, hid, hal, h1]
      · by_cases h2 : aid = "" <;> simp [likeKeyOf, hid, hal, h1, h2]

theorem likeKeyOf_eq_some (it : YLikeItem) (k : String) :
    likeKeyOf it = some k ↔ ∃ tid aid, it.id = some tid ∧ it.album_id = some aid ∧
      tid ≠ "" ∧ aid ≠ "" ∧ k = tid ++ ":" ++ aid := by
  cases hid : it.id with
  | none => simp [likeKeyOf, hid]
  | some tid =>
    cases hal : it.album_id with
    | none => simp [likeKeyOf, hid, hal]
    | some aid =>
      by_cases h1 : tid = ""
      · simp [likeKeyOf, hid, hal, h1]
      · by_cases h2 : aid = ""
        · simp [likeKeyOf, hid, hal, h1, h2]
        · simp only [likeKeyOf, hid, hal, if_neg h1, if_neg h2]
          constructor
          · rintro h
            cases h
            exact ⟨tid, aid, rfl, rfl, h1, h2, rfl⟩
          · rintro ⟨tid', aid', ht, ha, -, -, rfl⟩
            cases ht
            cases ha
            rfl

theorem fetch_yandex_fold_mem (items : List YLikeItem) :
    ∀ (acc : Finset String) (k : String),
    (k ∈ items.foldl (fun acc it =>
      match it.id, it.album_id with
      | some tid, some aid =>
        if tid = "" then acc
        else if aid = "" then acc
        else insert (tid ++ ":" ++ aid) acc
      | _, _ => acc) acc) ↔
    k ∈ acc ∨ ∃ it ∈ items, likeKeyOf it = some k := by
  induction items with
  | nil => intro acc k; simp
  | cons it rest ih =>
    intro acc k
    rw [List.foldl_cons, yandexFoldStep, ih]
    cases hk : likeKeyOf it with
    | none =>
      simp only
      constructor
      · rintro (h | ⟨u, hu, he⟩)
        · exact Or.inl h
        · exact Or.inr ⟨u, List.mem_cons_of_mem _ hu, he⟩
      · rintro (h | ⟨u, hu, he⟩)
        · exact Or.inl h
        · rcases List.mem_cons.mp hu with rfl | hu'
          · rw [hk] at he; cases he
          · exact Or.inr ⟨u, hu', he⟩
    | some key =>
      simp only
      constructor
      · rintro (h | ⟨u, hu, he⟩)
        · rcases Finset.mem_insert.mp h with rfl | h'
          · exact Or.inr ⟨it, List.mem_cons_self _ _, hk⟩
          · exact Or.inl h'
        · exact Or.inr ⟨u, List.mem_cons_of_mem _ hu, he⟩
      · rintro (h | ⟨u, hu, he⟩)
        · exact Or.inl (Finset.mem_insert_of_mem h)
        · rcases List.mem_cons.mp hu with rfl | hu'
          · rw [hk] at he
            cases he
            exact Or.inl (Finset.mem_insert_self _ _)
          · exact Or.inr ⟨u, hu', he⟩

theorem takeWhile_stopsItem_none (L : List RawItem) :
    L.takeWhile (fun it => !stopsItem none it) = L :=
  List.takeWhile_eq_self_iff.mpr (fun x _ => by simp [stopsItem_none])

/-- When every listing item's `added_at` parses to a value ≤ the watermark,
the Change Detector returns nothing. -/
theorem fetch_empty_of_all_old (L : List RawItem) (w : String) (sv : PyDateTime)
    (limit : Nat) (hl : 0 < limit)
    (hw : parse_spotify_ts (some w) = some sv)
    (hold : ∀ it ∈ L, ∃ d, parse_spotify_ts it.added_at = some d ∧ d.key ≤ sv.key) :
    fetch_spotify_liked_tracks L (some w) limit = [] := by
  rw [fetch_spotify_closed L (some w) limit hl, hw]
  rw [List.reverse_eq_nil_iff]
  rw [List.filterMap_eq_nil_iff]
  intro it hin
  have hinL : it ∈ L := (List.takeWhile_sublist _).subset hin
  have hp : stopsItem (some sv) it = false := by
    simpa using List.mem_takeWhile_imp hin
  cases hv : itemToTrack it with
  | none => rfl
  | some tr =>
    obtain ⟨d, hd, hle⟩ := hold it hinL
    rw [stopsItem_complete hv hd sv] at hp
    have := of_decide_eq_false hp
    omega

theorem searchRetryAux_sleeps_bounds (sb : Nat → CallOutcome (Option SearchResultObj)) :
    ∀ rem k, (searchRetryAux sb k rem).sleeps + 1 = (searchRetryAux sb k rem).calls ∨
      (searchRetryAux sb k rem).sleeps = (searchRetryAux sb k rem).calls := by
  intro rem
  induction rem with
  | zero => intro k; simp [searchRetryAux]
  | succ n ih =>
    intro k
    rw [searchRetryAux]
    cases sb k with
    | ok r => simp
    | err => simp
    | timeout =>
      simp only
      rcases ih (k + 1) with h | h
      · left
        omega
      · right
        omega

theorem likeRetryAux_sleeps_bounds (ab : Nat → CallOutcome Unit) :
    ∀ rem k, (likeRetryAux ab k rem).sleeps + 1 = (likeRetryAux ab k rem).calls ∨
      (likeRetryAux ab k rem).sleeps = (likeRetryAux ab k rem).calls := by
  intro rem
  induction rem with
  | zero => intro k; simp [likeRetryAux]
  | succ n ih =>
    intro k
    rw [likeRetryAux]
    cases ab k with
    | ok r => simp
    | err => simp
    | timeout =>
      simp only
      rcases ih (k + 1) with h | h
      · left
        omega
      · right
        omega

/-! ## Claim theorems -/

/-- Claim C6. For every search and every add-like call, at most 3 remote
attempts are made; a retry happens only after a timeout (every non-final
attempt was a timeout); exhausting the three timeouts reports failure to
the caller (`None` / `False`) instead of raising; a non-timeout error ends
the call immediately after the failing attempt; and the fixed delay runs
exactly once per timeout (the sleep count is the call count or one less,
and is pinned exactly in the exhaustion and error cases). -/
theorem claim6_retry_policy (sb : Nat → CallOutcome (Option SearchResultObj))
    (ab : Nat → CallOutcome Unit) (yt : YTrack) (likes : Finset String) :
    (searchRetryAux sb 0 3).calls ≤ 3 ∧
    (likeRetryAux ab 0 3).calls ≤ 3 ∧
    (∀ j, j + 1 < (searchRetryAux sb 0 3).calls → sb j = .timeout) ∧
    (∀ j, j + 1 < (likeRetryAux ab 0 3).calls → ab j = .timeout) ∧
    ((∀ i, i < 3 → sb i = .timeout) → find_best_yandex_match sb = .ok (none, 3)) ∧
    (∀ lid, build_yandex_like_id yt = some lid → lid ∉ likes →
      (∀ i, i < 3 → ab i = .timeout) →
      like_yandex_track ab yt likes = (⟨false, 3, 3⟩, likes)) ∧
    (∀ j, j < 3 → sb j = .err → (∀ i, i < j → sb i = .timeout) →
      searchRetryAux sb 0 3 = ⟨.raised, j + 1, j⟩ ∧
        find_best_yandex_match sb = .error ()) ∧
    (∀ j lid, j < 3 → build_yandex_like_id yt = some lid → lid ∉ likes →
      ab j = .err → (∀ i, i < j → ab i = .timeout) →
      like_yandex_track ab yt likes = (⟨false, j + 1, j⟩, likes)) ∧
    ((searchRetryAux sb 0 3).sleeps + 1 = (searchRetryAux sb 0 3).calls ∨
      (searchRetryAux sb 0 3).sleeps = (searchRetryAux sb 0 3).calls) ∧
    ((likeRetryAux ab 0 3).sleeps + 1 = (likeRetryAux ab 0 3).calls ∨
      (likeRetryAux ab 0 3).sleeps = (likeRetryAux ab 0 3).calls) := by
  refine ⟨searchRetryAux_calls_le sb 3 0, likeRetryAux_calls_le ab 3 0, ?_, ?_, ?_, ?_, ?_, ?_,
    searchRetryAux_sleeps_bounds sb 3 0, likeRetryAux_sleeps_bounds ab 3 0⟩
  · intro j hj
    simpa using searchRetryAux_retry_only_timeout sb 3 0 j hj
  · intro j hj
    simpa using likeRetryAux_retry_only_timeout ab 3 0 j hj
  · intro hall
    have h := searchRetryAux_exhausted sb 3 0 (fun i hi => by simpa using hall i hi)
    unfold find_best_yandex_match
    rw [h]
  · intro lid hb hmem hall
    have h := likeRetryAux_exhausted ab 3 0 (fun i hi => by simpa using hall i hi)
    unfold like_yandex_track
    rw [hb]
    simp [hmem, h]
  · intro j hj herr hpre
    have h := searchRetryAux_err sb 3 0 j hj (by simpa using herr)
      (fun i hi => by simpa using hpre i hi)
    refine ⟨h, ?_⟩
    unfold find_best_yandex_match
    rw [h]
  · intro j lid hj hb hmem herr hpre
    have h := likeRetryAux_err ab 3 0 j hj (by simpa using herr)
      (fun i hi => by simpa using hpre i hi)
    unfold like_yandex_track
    rw [hb]
    simp [hmem, h]

/-- Witness for **C6**: with every attempt timing out, the search reports
`None` after exactly 3 calls and 3 sleeps, and the like reports `False`
after exactly 3 calls and 3 sleeps; with an immediate non-timeout error the
like stops after 1 call. -/
theorem claim6_retry_policy_witness :
    find_best_yandex_match (fun _ => .timeout) = .ok (none, 3) ∧
    like_yandex_track (fun _ => .timeout) ⟨some "5", some [⟨some "7"⟩], "t", []⟩ ∅ =
      (⟨false, 3, 3⟩, ∅) ∧
    like_yandex_track (fun _ => .err) ⟨some "5", some [⟨some "7"⟩], "t", []⟩ ∅ =
      (⟨false, 1, 0⟩, ∅) := by
  obtain ⟨-, -, -, -, c5, c6, -, c8, -, -⟩ :=
    claim6_retry_policy (fun _ => .timeout) (fun _ => .timeout)
      ⟨some "5", some [⟨some "7"⟩], "t", []⟩ ∅
  obtain ⟨-, -, -, -, -, -, -, c8', -, -⟩ :=
    claim6_retry_policy (fun _ => .timeout) (fun _ => .err)
      ⟨some "5", some [⟨some "7"⟩], "t", []⟩ ∅
  refine ⟨c5 (fun i _ => rfl), c6 "5:7" (by decide) (by decide) (fun i _ => rfl), ?_⟩
  have := c8' 0 "5:7" (by omega) (by decide) (by decide) rfl (fun i hi => by omega)
  simpa using this

/-- Claim C8. The Target Snapshot fetch is best-effort: a failing listing
call yields the empty set (the exception is swallowed), and a successful
listing yields exactly the keys `track_id:album_id` of the entries having
both a (non-empty) track id and album id. -/
theorem claim8_target_snapshot :
    (∀ u : Unit, fetch_yandex_liked_ids (.error u) = ∅) ∧
    (∀ (items : List YLikeItem) (k : String),
      k ∈ fetch_yandex_liked_ids (.ok items) ↔
        ∃ it ∈ items, ∃ tid aid, it.id = some tid ∧ it.album_id = some aid ∧
          tid ≠ "" ∧ aid ≠ "" ∧ k = tid ++ ":" ++ aid) := by
  refine ⟨fun u => rfl, fun items k => ?_⟩
  unfold fetch_yandex_liked_ids
  rw [fetch_yandex_fold_mem]
  simp only [Finset.not_mem_empty, false_or]
  constructor
  · rintro ⟨it, hin, hk⟩
    exact ⟨it, hin, (likeKeyOf_eq_some it k).mp hk⟩
  · rintro ⟨it, hin, hk⟩
    exact ⟨it, hin, (likeKeyOf_eq_some it k).mpr hk⟩

/-- Witness for **C8**: a failure gives `∅`; a two-entry listing with one
complete entry yields exactly its key. -/
theorem claim8_target_snapshot_witness :
    fetch_yandex_liked_ids (.error ()) = ∅ ∧
    ("10:20" ∈ fetch_yandex_liked_ids (.ok [⟨some "10", some "20"⟩, ⟨some "9", none⟩])) ∧
    ¬ ("9:1" ∈ fetch_yandex_liked_ids (.ok [⟨some "10", some "20"⟩, ⟨some "9", none⟩])) := by
  refine ⟨claim8_target_snapshot.1 (), ?_, ?_⟩
  · exact (claim8_target_snapshot.2 [⟨some "10", some "20"⟩, ⟨some "9", none⟩] "10:20").mpr
      ⟨⟨some "10", some "20"⟩, by decide, "10", "20", rfl, rfl, by decide, by decide, rfl⟩
  · intro hmem
    obtain ⟨it, hin, tid, aid, h1, h2, h3, h4, h5⟩ :=
      (claim8_target_snapshot.2 [⟨some "10", some "20"⟩, ⟨some "9", none⟩] "9:1").mp hmem
    rcases List.mem_cons.mp hin with rfl | hin'
    · cases h1
      cases h2
      exact absurd h5 (by decide)
    · rcases List.mem_cons.mp hin' with rfl | hin''
      · cases h2
      · cases hin''

/-- Claim C10. For every `Z`-suffixed, second-precision ISO-8601 UTC
timestamp string (the shape the source catalog emits and the watermark
store holds: the rendering of a calendar-valid datetime), formatting the
parsed value returns the string exactly; hence a watermark survives a
persist/reload cycle unchanged. -/
theorem claim10_ts_roundtrip (w : String)
    (h : ∃ t, validDT t = true ∧ w = String.mk (renderTsChars t)) :
    format_spotify_ts (parse_spotify_ts (some w)) = some w := by
  obtain ⟨t, hv, rfl⟩ := h
  rw [parse_render t hv]
  rfl

/-- Witness for **C10** at the spec's example timestamp. -/
theorem claim10_ts_roundtrip_witness :
    format_spotify_ts (parse_spotify_ts (some "2025-12-02T10:33:56Z")) =
      some "2025-12-02T10:33:56Z" :=
  claim10_ts_roundtrip "2025-12-02T10:33:56Z"
    ⟨⟨2025, 12, 2, 10, 33, 56⟩, by decide, by decide⟩

/-- Claim C1 (amended).  For every paginated newest-first source listing and
watermark (positive page size), the Change Detector returns, oldest-first
(reversed listing order), exactly the valid items (track payload and
non-empty id) of the longest listing prefix containing no stopping item — a
stopping item is one with track, id, and parsed `addedAt` ≤ the watermark;
with no (parseable) watermark the prefix is the whole listing; items with
missing id or track payload are dropped, and an item with unparseable
`addedAt` is included only when it lies before the stop point.  On a
complete listing sorted newest-first with a parseable watermark, the result
is exactly the items strictly newer than the watermark. -/
theorem claim1_change_detector (L : List RawItem) (w : Option String) (limit : Nat)
    (hl : 0 < limit) :
    fetch_spotify_liked_tracks L w limit =
      ((L.takeWhile (fun it => !stopsItem (parse_spotify_ts w) it)).filterMap
        itemToTrack).reverse ∧
    (parse_spotify_ts w = none →
      fetch_spotify_liked_tracks L w limit = (L.filterMap itemToTrack).reverse) ∧
    (∀ sv, parse_spotify_ts w = some sv →
      (∀ it ∈ L, completeItem it = true) →
      L.Pairwise (fun a b => ∀ da db, parse_spotify_ts a.added_at = some da →
        parse_spotify_ts b.added_at = some db → db.key ≤ da.key) →
      ∀ tr, tr ∈ fetch_spotify_liked_tracks L w limit ↔
        ∃ it ∈ L, itemToTrack it = some tr ∧
          ∃ d, parse_spotify_ts it.added_at = some d ∧ sv.key < d.key) := by
  refine ⟨fetch_spotify_closed L w limit hl, ?_, ?_⟩
  · intro hw
    rw [fetch_spotify_closed L w limit hl, hw, takeWhile_stopsItem_none]
  · intro sv hw hcomp hsort tr
    cases w with
    | none => cases hw
    | some ws => exact fetch_mem_sorted L ws sv limit hl hw hcomp hsort tr

/-- Counterexample to **C1** as stated: the claim says an item with an
unparseable `addedAt` is still included, but an item listed after the stop
point is not returned.  Item `a` is older than the watermark (stop); item
`b` has a valid id/track but unparseable `addedAt`, yet the fetch is
empty. -/
theorem claim1_change_detector_counterexample :
    fetch_spotify_liked_tracks
      [⟨some ⟨some "a", some "A", [], none, some 1⟩, some "2025-01-01T00:00:00Z"⟩,
       ⟨some ⟨some "b", some "B", [], none, some 2⟩, some "garbage"⟩]
      (some "2025-06-01T00:00:00Z") 50 = [] ∧
    itemToTrack ⟨some ⟨some "b", some "B", [], none, some 2⟩, some "garbage"⟩ =
      some (mkTrack ⟨some "b", some "B", [], none, some 2⟩ "b" (some "garbage")) ∧
    parse_spotify_ts (some "garbage") = none := by
  refine ⟨?_, by decide, by decide⟩
  rw [fetch_spotify_closed _ _ _ (by decide)]
  decide

/-- Witness for **C1**: a two-item newest-first listing with a watermark
equal to the older item's `addedAt` returns exactly the newer item,
oldest-first. -/
theorem claim1_change_detector_witness :
    fetch_spotify_liked_tracks
      [⟨some ⟨some "c", some "C", [], none, some 3⟩, some "2025-01-03T00:00:00Z"⟩,
       ⟨some ⟨some "b2", some "B2", [], none, some 2⟩, some "2025-01-02T00:00:00Z"⟩]
      (some "2025-01-02T00:00:00Z") 50 =
      [mkTrack ⟨some "c", some "C", [], none, some 3⟩ "c" (some "2025-01-03T00:00:00Z")] := by
  rw [(claim1_change_detector
    [⟨some ⟨some "c", some "C", [], none, some 3⟩, some "2025-01-03T00:00:00Z"⟩,
     ⟨some ⟨some "b2", some "B2", [], none, some 2⟩, some "2025-01-02T00:00:00Z"⟩]
    (some "2025-01-02T00:00:00Z") 50 (by decide)).1]
  decide

/-- Claim C5 (amended).  `load_state` returns the fresh default state when
the file is absent or its content is unreadable/unparseable; for a JSON
*object* of any shape it returns a valid state, defaulting missing keys,
replacing a non-list `processed_spotify_ids` by `[]` and coercing all its
entries to strings with `str`.  A parseable JSON value that is *not* an
object, however, makes `load_state` raise (the `setdefault` attribute
error escapes). -/
theorem claim5_load_state :
    load_state .absent = .ok ⟨[], .null⟩ ∧
    load_state .unreadable = .ok ⟨[], .null⟩ ∧
    (∀ fs, load_state (.content (.dict fs)) = .ok
      ⟨(match (dictGet fs "processed_spotify_ids").getD (.list []) with
        | .list xs => xs.map pyStr
        | _ => ([] : List String)),
       (dictGet fs "last_spotify_added_at").getD .null⟩) ∧
    (∀ fs xs, dictGet fs "processed_spotify_ids" = some (.list xs) →
      (load_state (.content (.dict fs))).map LoadedDict.processed = .ok (xs.map pyStr)) := by
  refine ⟨rfl, rfl, fun fs => rfl, fun fs xs h => ?_⟩
  simp only [load_state, h]
  rfl

/-- Counterexample to **C5** as stated: a state file holding the JSON
value `[]` — valid JSON, but not an object — makes `load_state` raise
instead of returning a fresh default state. -/
theorem claim5_load_state_counterexample :
    load_state (.content (.list [])) = .error () := rfl

/-- Witness for **C5**: heterogeneous processed-ID entries are coerced to
strings, and the missing watermark key is defaulted. -/
theorem claim5_load_state_witness :
    load_state (.content (.dict
      [("processed_spotify_ids", .list [.str "a", .null, .bool true])])) =
      .ok ⟨["a", "None", "True"], .null⟩ := by
  rw [claim5_load_state.2.2.1
    [("processed_spotify_ids", .list [.str "a", .null, .bool true])]]
  rfl

/-- Claim C7 (amended).  Per-item failures of the kinds the code handles —
search timeouts (including exhaustion), zero results, a malformed response
shape, and any add-like failure (timeout, exhaustion or other error) — are
absorbed by the loop, which completes normally; this holds for every
behaviour in which the search call never raises a non-timeout error.  A
non-timeout error raised by the search call, however, is *not* absorbed:
it propagates and aborts the run (see the counterexample). -/
theorem claim7_failure_absorption (s : LoadedState) (yaL : Finset String)
    (tracks : List Track) (env : Nat → ItemEnv)
    (hnr : ∀ i n, (env i).searchB n ≠ .err) :
    ∃ st', reconcileRun s yaL tracks env = .ok st' :=
  mainLoop_ok_of_no_err env tracks hnr (initialRunState s yaL) 1

/-- Counterexample to **C7** as stated ("a non-timeout error raised by the
search call never aborts the run"): with one new item and a search call
that raises a non-timeout error, the process exits with code 1. -/
theorem claim7_failure_absorption_counterexample :
    scriptExitCode ⟨[], none⟩
      [⟨some ⟨some "x", some "X", [], none, some 0⟩, some "2025-01-01T00:00:00Z"⟩]
      (.ok []) (fun _ => ⟨fun _ => .err, fun _ => .ok ()⟩) = 1 := by
  have hfetch : fetch_spotify_liked_tracks
      [⟨some ⟨some "x", some "X", [], none, some 0⟩, some "2025-01-01T00:00:00Z"⟩]
      none 50 =
      [mkTrack ⟨some "x", some "X", [], none, some 0⟩ "x" (some "2025-01-01T00:00:00Z")] := by
    rw [fetch_spotify_closed _ _ _ (by decide)]
    decide
  simp only [scriptExitCode, mainRun, reconcileRun]
  rw [hfetch]
  decide

/-- Witness for **C7**: a run whose only item hits search timeouts and a
failing add-like call still completes. -/
theorem claim7_failure_absorption_witness :
    ∃ st', reconcileRun ⟨[], none⟩ ∅
      [⟨"x", "X", [], "", 0, some "2025-01-01T00:00:00Z"⟩]
      (fun _ => ⟨fun _ => .timeout, fun _ => .err⟩) = .ok st' :=
  claim7_failure_absorption ⟨[], none⟩ ∅
    [⟨"x", "X", [], "", 0, some "2025-01-01T00:00:00Z"⟩]
    (fun _ => ⟨fun _ => .timeout, fun _ => .err⟩)
    (fun i n h => CallOutcome.noConfusion h)

/-- Claim C2 (amended).  For every run: the persisted watermark after the
run is chronologically ≥ the watermark before it; the in-memory candidate
`max_added_dt` is an upper bound of every considered item's parsed
`addedAt` and of the previous watermark, and is attained by one of them;
and whenever the run's *final* item is newly processed (not skipped), the
persisted watermark equals the formatted maximum over the previous
watermark and all considered items.  (A trailing skipped item advances
only the in-memory candidate without persisting — see the
counterexample.) -/
theorem claim2_watermark_monotone (s : LoadedState) (yaL : Finset String)
    (tracks : List Track) (env : Nat → ItemEnv) (st' : RunState)
    (hrun : reconcileRun s yaL tracks env = .ok st') :
    tsLeO (parse_spotify_ts s.last) (parse_spotify_ts (persistedLast s st')) ∧
    ((∃ pre it, tracks = pre ++ [it] ∧ it.id ∉ s.processed ∧
        it.id ∉ pre.map Track.id) →
      persistedLast s st' = expectedLast s tracks) ∧
    (∀ t ∈ tracks, ∀ d, parse_spotify_ts t.added_at = some d →
      tsLeO (some d) (listMax (parse_spotify_ts s.last) tracks)) ∧
    tsLeO (parse_spotify_ts s.last) (listMax (parse_spotify_ts s.last) tracks) ∧
    (listMax (parse_spotify_ts s.last) tracks = parse_spotify_ts s.last ∨
      ∃ t ∈ tracks, listMax (parse_spotify_ts s.last) tracks =
        parse_spotify_ts t.added_at) := by
  have hInv0 : runInv s (initialRunState s yaL) := by
    refine ⟨tsLeO_refl _, fun d hd => parse_valid hd, ?_, Or.inl rfl⟩
    intro f hf
    cases hf
  obtain ⟨hIle, hIval, hImir, hIor⟩ :=
    mainLoop_inv s env tracks (initialRunState s yaL) 1 st' hrun hInv0
  refine ⟨?_, ?_, listMax_upper tracks _, listMax_grows tracks _, listMax_attained tracks _⟩
  · cases hls : st'.lastSaved with
    | none =>
      unfold persistedLast
      rw [hls]
      exact tsLeO_refl _
    | some f =>
      unfold persistedLast
      rw [hls]
      show tsLeO (parse_spotify_ts s.last) (parse_spotify_ts f.last)
      rw [hImir f hls]
      rcases hIor with hl | ⟨d, hvd, hled, hfmt⟩
      · rw [hl]
        exact tsLeO_refl _
      · rw [hfmt, format_parse d hvd]
        exact hled
  · rintro ⟨pre, it, rfl, hfresh, hnotpre⟩
    unfold reconcileRun at hrun
    have happ := mainLoop_append env pre [it] (initialRunState s yaL) 1
    rw [happ] at hrun
    cases hpre : mainLoop env (initialRunState s yaL) 1 pre with
    | error u => rw [hpre] at hrun; cases hrun
    | ok st1 =>
      rw [hpre] at hrun
      have hrun2 : mainLoop env st1 (1 + pre.length) [it] = Except.ok st' := hrun
      have hstep : mainStep (env (1 + pre.length)) st1 it = .ok st' := by
        cases hms : mainStep (env (1 + pre.length)) st1 it with
        | error u =>
          have hred : mainLoop env st1 (1 + pre.length) [it] = Except.error u := by
            simp [mainLoop, hms]
          rw [hred] at hrun2
          cases hrun2
        | ok st2 =>
          have hred : mainLoop env st1 (1 + pre.length) [it] = Except.ok st2 := by
            simp [mainLoop, hms]
          rw [hred] at hrun2
          cases hrun2
          rfl
      have hfresh1 : it.id ∉ st1.processed := by
        intro hmem
        rcases mainLoop_processed_subset env pre (initialRunState s yaL) 1 st1 hpre
          it.id hmem with h | h
        · exact hfresh (List.mem_toFinset.mp h)
        · exact hnotpre h
      obtain ⟨hproc, hlast, hsaved, hcount⟩ := mainStep_fresh_saves hstep hfresh1
      have hper : persistedLast s st' = st'.stateLast := by
        unfold persistedLast
        rw [hsaved]
      rw [hper, hlast]
      have hmax : st'.maxAdded = listMax (parse_spotify_ts s.last) (pre ++ [it]) := by
        rw [mainStep_maxAdded hstep,
          mainLoop_maxAdded env pre (initialRunState s yaL) 1 st1 hpre]
        show maxStep (listMax (parse_spotify_ts s.last) pre)
          (parse_spotify_ts it.added_at) =
          listMax (parse_spotify_ts s.last) (pre ++ [it])
        unfold listMax
        rw [List.foldl_append]
        rfl
      unfold expectedLast
      rw [← hmax]
      cases hmx : st'.maxAdded with
      | some d => rfl
      | none =>
        have hst1 : st1.maxAdded = none := by
          have h2 := mainStep_maxAdded hstep
          rw [hmx] at h2
          exact (maxStep_eq_none h2.symm).1
        exact mainLoop_none_last env pre (initialRunState s yaL) 1 st1 hpre hst1

/-- Counterexample to **C2** as stated: a run whose only item is already
processed considers it (the candidate advances to its `addedAt`), yet
nothing is persisted — the persisted watermark stays `None`, not the
maximum considered `addedAt`. -/
theorem claim2_watermark_monotone_counterexample :
    (reconcileRun ⟨["x"], none⟩ ∅ [⟨"x", "X", [], "", 0, some "2025-05-05T05:05:05Z"⟩]
      (fun _ => ⟨fun _ => .err, fun _ => .err⟩)).toOption.map RunState.skipped =
      some 1 ∧
    (reconcileRun ⟨["x"], none⟩ ∅ [⟨"x", "X", [], "", 0, some "2025-05-05T05:05:05Z"⟩]
      (fun _ => ⟨fun _ => .err, fun _ => .err⟩)).toOption.map
        (persistedLast ⟨["x"], none⟩) = some none ∧
    (reconcileRun ⟨["x"], none⟩ ∅ [⟨"x", "X", [], "", 0, some "2025-05-05T05:05:05Z"⟩]
      (fun _ => ⟨fun _ => .err, fun _ => .err⟩)).toOption.map RunState.maxAdded =
      some (some ⟨2025, 5, 5, 5, 5, 5⟩) := by
  decide

/-- Witness for **C2**: a run with one fresh unmatched item persists the
formatted maximum, here the item's own `addedAt`. -/
theorem claim2_watermark_monotone_witness :
    (reconcileRun ⟨[], none⟩ ∅ [⟨"w1", "W", [], "", 0, some "2025-02-02T02:02:02Z"⟩]
      (fun _ => ⟨fun _ => .ok none, fun _ => .ok ()⟩)).toOption.map
        (persistedLast ⟨[], none⟩) =
      some (expectedLast ⟨[], none⟩ [⟨"w1", "W", [], "", 0, some "2025-02-02T02:02:02Z"⟩]) ∧
    expectedLast ⟨[], none⟩ [⟨"w1", "W", [], "", 0, some "2025-02-02T02:02:02Z"⟩] =
      some "2025-02-02T02:02:02Z" := by
  have hok : (reconcileRun ⟨[], none⟩ ∅
      [⟨"w1", "W", [], "", 0, some "2025-02-02T02:02:02Z"⟩]
      (fun _ => ⟨fun _ => .ok none, fun _ => .ok ()⟩)).isOk = true := by decide
  obtain ⟨st', hst'⟩ : ∃ st', reconcileRun ⟨[], none⟩ ∅
      [⟨"w1", "W", [], "", 0, some "2025-02-02T02:02:02Z"⟩]
      (fun _ => ⟨fun _ => .ok none, fun _ => .ok ()⟩) = .ok st' := by
    cases h : reconcileRun ⟨[], none⟩ ∅
        [⟨"w1", "W", [], "", 0, some "2025-02-02T02:02:02Z"⟩]
        (fun _ => ⟨fun _ => .ok none, fun _ => .ok ()⟩) with
    | ok a => exact ⟨a, rfl⟩
    | error u =>
      cases u
      rw [h] at hok
      exact absurd hok (by decide)
  have hc := claim2_watermark_monotone ⟨[], none⟩ ∅
    [⟨"w1", "W", [], "", 0, some "2025-02-02T02:02:02Z"⟩]
    (fun _ => ⟨fun _ => .ok none, fun _ => .ok ()⟩) st' hst'
  have heq := hc.2.1 ⟨[], ⟨"w1", "W", [], "", 0, some "2025-02-02T02:02:02Z"⟩,
    rfl, by decide, by decide⟩
  refine ⟨?_, by decide⟩
  rw [hst']
  simp [Except.toOption, heq]

/-- Claim C3.  When a fresh item's matched candidate resolves to a like key
already present in the in-memory Target Snapshot set (whether loaded
before the run or inserted by an earlier successful like this run: the
hypothesis quantifies over the current set), no add-like call is issued
(`addCalls` unchanged), the item counts as a success (`added` increments),
and its id is added to `processedIds` and persisted. -/
theorem claim3_duplicate_suppression (e : ItemEnv) (st : RunState) (t : Track)
    (yt : YTrack) (calls : Nat) (k : String)
    (hfresh : t.id ∉ st.processed)
    (hmatch : find_best_yandex_match e.searchB = .ok (some yt, calls))
    (hkey : build_yandex_like_id yt = some k)
    (hmem : k ∈ st.yaLikes) :
    ∃ st', mainStep e st t = .ok st' ∧
      st'.addCalls = st.addCalls ∧
      st'.added = st.added + 1 ∧
      st'.yaLikes = st.yaLikes ∧
      st'.processed = insert t.id st.processed ∧
      st'.savedCount = st.savedCount + 1 ∧
      st'.lastSaved = some ⟨insert t.id st.processed, st'.stateLast⟩ := by
  have hlike : like_yandex_track e.addB yt st.yaLikes = (⟨true, 0, 0⟩, st.yaLikes) := by
    unfold like_yandex_track
    rw [hkey]
    simp [hmem]
  simp only [mainStep]
  rw [if_neg hfresh, hmatch]
  refine ⟨_, rfl, ?_, ?_, ?_, ?_, ?_, ?_⟩ <;> simp [saveState, hlike]

/-- Witness for **C3**: with the candidate's key `5:7` already in the
snapshot, the step succeeds with zero add-like calls. -/
theorem claim3_duplicate_suppression_witness :
    ∃ st', mainStep
      ⟨fun _ => .ok (some ⟨some ⟨[⟨some "5", some [⟨some "7"⟩], "T", []⟩]⟩⟩),
       fun _ => .err⟩
      ⟨∅, none, none, {"5:7"}, 0, 0, 0, 0, 0, 0, none, 0⟩
      ⟨"sp1", "S", [], "", 0, none⟩ = .ok st' ∧
      st'.addCalls = 0 ∧ st'.added = 1 := by
  obtain ⟨st', h1, h2, h3, -⟩ := claim3_duplicate_suppression
    ⟨fun _ => .ok (some ⟨some ⟨[⟨some "5", some [⟨some "7"⟩], "T", []⟩]⟩⟩),
     fun _ => .err⟩
    ⟨∅, none, none, {"5:7"}, 0, 0, 0, 0, 0, 0, none, 0⟩
    ⟨"sp1", "S", [], "", 0, none⟩
    ⟨some "5", some [⟨some "7"⟩], "T", []⟩ 1 "5:7"
    (by decide) rfl (by decide) (by decide)
  exact ⟨st', h1, h2, h3⟩

/-- Claim C4 (amended).  An already-processed item is skipped: no matching,
no liking, the skipped counter increments and the in-memory watermark
candidate still advances — but the state is *not* re-persisted on such
items: a run consisting only of already-processed items issues no remote
calls and never writes the state file, even when the candidate advanced. -/
theorem claim4_skip_already_processed (s : LoadedState) (yaL : Finset String)
    (tracks : List Track) (env : Nat → ItemEnv)
    (hall : ∀ t ∈ tracks, t.id ∈ s.processed) :
    ∃ st', reconcileRun s yaL tracks env = .ok st' ∧
      st'.skipped = tracks.length ∧
      st'.maxAdded = listMax (parse_spotify_ts s.last) tracks ∧
      st'.processed = s.processed.toFinset ∧
      st'.yaLikes = yaL ∧
      st'.searchCalls = 0 ∧
      st'.addCalls = 0 ∧
      st'.lastSaved = none ∧
      st'.savedCount = 0 ∧
      persistedLast s st' = s.last := by
  have h := mainLoop_all_skip env tracks (initialRunState s yaL) 1
    (fun t ht => List.mem_toFinset.mpr (hall t ht))
  refine ⟨_, h, ?_, rfl, rfl, rfl, rfl, rfl, rfl, rfl, rfl⟩
  show (0 : Nat) + tracks.length = tracks.length
  omega

/-- Counterexample to **C4** as stated: a run whose only item is already
processed advances the watermark candidate to `2026-01-01`, yet the state
is never persisted (`savedCount = 0`, no file written). -/
theorem claim4_skip_already_processed_counterexample :
    (reconcileRun ⟨["k"], none⟩ ∅ [⟨"k", "K", [], "", 0, some "2026-01-01T00:00:00Z"⟩]
      (fun _ => ⟨fun _ => .err, fun _ => .err⟩)).toOption.map RunState.savedCount =
      some 0 ∧
    (reconcileRun ⟨["k"], none⟩ ∅ [⟨"k", "K", [], "", 0, some "2026-01-01T00:00:00Z"⟩]
      (fun _ => ⟨fun _ => .err, fun _ => .err⟩)).toOption.map RunState.maxAdded =
      some (some ⟨2026, 1, 1, 0, 0, 0⟩) ∧
    (reconcileRun ⟨["k"], none⟩ ∅ [⟨"k", "K", [], "", 0, some "2026-01-01T00:00:00Z"⟩]
      (fun _ => ⟨fun _ => .err, fun _ => .err⟩)).toOption.map RunState.lastSaved =
      some none := by
  decide

/-- Witness for **C4**: a one-item all-processed run skips it and leaves
everything unwritten. -/
theorem claim4_skip_already_processed_witness :
    ∃ st', reconcileRun ⟨["k2"], none⟩ ∅
      [⟨"k2", "K2", [], "", 0, some "2026-02-02T00:00:00Z"⟩]
      (fun _ => ⟨fun _ => .err, fun _ => .err⟩) = .ok st' ∧
      st'.savedCount = 0 ∧ persistedLast ⟨["k2"], none⟩ st' = none := by
  obtain ⟨st', h1, -, -, -, -, -, -, -, h9, h10⟩ := claim4_skip_already_processed
    ⟨["k2"], none⟩ ∅ [⟨"k2", "K2", [], "", 0, some "2026-02-02T00:00:00Z"⟩]
    (fun _ => ⟨fun _ => .err, fun _ => .err⟩)
    (fun t ht => by
      rcases List.mem_singleton.mp ht with rfl
      decide)
  exact ⟨st', h1, h9, h10⟩

/-- Claim C9.  A second run in which every listed item's `addedAt` parses
and is ≤ the (parseable) persisted watermark is a no-op: the Change
Detector returns the empty list, the run completes immediately, no search
or add-like call is issued, and `processedIds`, the watermark, the state
file and the target like-set are all unchanged. -/
theorem claim9_idempotent_rerun (s : LoadedState) (L : List RawItem)
    (ya : Except Unit (List YLikeItem)) (env : Nat → ItemEnv) (sv : PyDateTime)
    (hw : parse_spotify_ts s.last = some sv)
    (hold : ∀ it ∈ L, ∃ d, parse_spotify_ts it.added_at = some d ∧ d.key ≤ sv.key) :
    fetch_spotify_liked_tracks L s.last 50 = [] ∧
    mainRun s L ya env = .ok (initialRunState s (fetch_yandex_liked_ids ya)) ∧
    (∀ st', mainRun s L ya env = .ok st' →
      st'.processed = s.processed.toFinset ∧
      st'.yaLikes = fetch_yandex_liked_ids ya ∧
      st'.searchCalls = 0 ∧ st'.addCalls = 0 ∧ st'.savedCount = 0 ∧
      st'.lastSaved = none ∧ persistedLast s st' = s.last) := by
  have hfetch : fetch_spotify_liked_tracks L s.last 50 = [] := by
    cases hsl : s.last with
    | none => rw [hsl] at hw; cases hw
    | some w =>
      rw [hsl] at hw
      exact fetch_empty_of_all_old L w sv 50 (by norm_num) hw hold
  have hok : mainRun s L ya env = .ok (initialRunState s (fetch_yandex_liked_ids ya)) := by
    unfold mainRun reconcileRun
    rw [hfetch]
    rfl
  refine ⟨hfetch, hok, ?_⟩
  intro st' h
  rw [hok] at h
  cases h
  exact ⟨rfl, rfl, rfl, rfl, rfl, rfl, rfl⟩

/-- Witness for **C9**: with the watermark at `2025-01-02` and the listing
holding only an older item, the second run changes nothing. -/
theorem claim9_idempotent_rerun_witness :
    fetch_spotify_liked_tracks
      [⟨some ⟨some "a", some "A", [], none, some 1⟩, some "2025-01-01T00:00:00Z"⟩]
      (some "2025-01-02T00:00:00Z") 50 = [] ∧
    mainRun ⟨["a"], some "2025-01-02T00:00:00Z"⟩
      [⟨some ⟨some "a", some "A", [], none, some 1⟩, some "2025-01-01T00:00:00Z"⟩]
      (.ok [⟨some "1", some "2"⟩]) (fun _ => ⟨fun _ => .err, fun _ => .err⟩) =
      .ok (initialRunState ⟨["a"], some "2025-01-02T00:00:00Z"⟩
        (fetch_yandex_liked_ids (.ok [⟨some "1", some "2"⟩]))) := by
  have h := claim9_idempotent_rerun ⟨["a"], some "2025-01-02T00:00:00Z"⟩
    [⟨some ⟨some "a", some "A", [], none, some 1⟩, some "2025-01-01T00:00:00Z"⟩]
    (.ok [⟨some "1", some "2"⟩]) (fun _ => ⟨fun _ => .err, fun _ => .err⟩)
    ⟨2025, 1, 2, 0, 0, 0⟩ (by decide)
    (fun it hin => by
      rcases List.mem_singleton.mp hin with rfl
      exact ⟨⟨2025, 1, 1, 0, 0, 0⟩, by decide, by decide⟩)
  exact ⟨h.1, h.2.1⟩

end SpotifySync
